import Mathlib

/-!
Verification of the pixiv-sync synchronization core (`PixivSync.py`).

The development shallowly embeds the program's data model and operations:

* Python dictionaries become association lists (`dict_get`, `dict_set`,
  `dict_update`) with first-occurrence lookup and in-place replacement,
  matching CPython's insertion-ordered dict semantics.
* The loosely-typed JSON records stored in the sync database become the
  `Val` type, covering exactly the shapes the program reads and writes
  (strings, numbers, booleans, tag lists, image lists).
* Filesystem state is a pair of finite sets of file paths and directory
  paths; fallible I/O operations (`api.download`, `os.remove`,
  `shutil.rmtree`) are driven by an explicit environment `IOEnv` recording
  which operations fail.
* Machine-level concerns (threads, the `RLock`) are outside the scope of the
  claims treated here; all modelled operations run sequentially, as each
  single claim concerns a single logical thread of control.
-/

namespace PixivSync

/-- Lexicographic comparison of code-point sequences: Python string `<=`. -/
def chars_le : List Char → List Char → Bool
  | [], _ => true
  | _ :: _, [] => false
  | a :: as, b :: bs =>
    if a.toNat = b.toNat then chars_le as bs else a.toNat < b.toNat

/-- Python string comparison `a <= b` (by code points). -/
def py_str_le (a b : String) : Bool := chars_le a.toList b.toList

/-- `chars_startswith p s`: the code-point sequence `s` starts with `p`. -/
def chars_startswith : List Char → List Char → Bool
  | [], _ => true
  | _ :: _, [] => false
  | a :: as, b :: bs => a.toNat = b.toNat && chars_startswith as bs

/-- Python `s.startswith(p)`. -/
def str_startswith (s p : String) : Bool := chars_startswith p.toList s.toList

theorem chars_le_total (a b : List Char) : chars_le a b = true ∨ chars_le b a = true := by
  induction a generalizing b with
  | nil => left; rfl
  | cons x xs ih =>
    cases b with
    | nil => right; rfl
    | cons y ys =>
      by_cases hxy : x.toNat = y.toNat
      · rcases ih ys with h | h
        · left; simp [chars_le, hxy, h]
        · right; simp [chars_le, hxy.symm, h]
      · rcases Nat.lt_or_ge x.toNat y.toNat with h | h
        · left; simp [chars_le, hxy, h]
        · right
          have hy : y.toNat ≠ x.toNat := fun hh => hxy hh.symm
          have : y.toNat < x.toNat := lt_of_le_of_ne h hy
          simp [chars_le, hy, this]

theorem chars_le_trans (a b c : List Char) (hab : chars_le a b = true)
    (hbc : chars_le b c = true) : chars_le a c = true := by
  induction a generalizing b c with
  | nil => rfl
  | cons x xs ih =>
    cases b with
    | nil => simp [chars_le] at hab
    | cons y ys =>
      cases c with
      | nil => simp [chars_le] at hbc
      | cons z zs =>
        simp only [chars_le] at hab hbc ⊢
        by_cases hxy : x.toNat = y.toNat
        · by_cases hyz : y.toNat = z.toNat
          · rw [if_pos hxy] at hab
            rw [if_pos hyz] at hbc
            rw [if_pos (hxy.trans hyz)]
            exact ih ys zs hab hbc
          · rw [if_neg hyz] at hbc
            have hlt : y.toNat < z.toNat := by simpa using hbc
            have hxz : x.toNat ≠ z.toNat := by omega
            rw [if_neg hxz]
            simp only [decide_eq_true_eq]
            omega
        · rw [if_neg hxy] at hab
          have hlt : x.toNat < y.toNat := by simpa using hab
          by_cases hyz : y.toNat = z.toNat
          · have hxz : x.toNat ≠ z.toNat := by omega
            rw [if_neg hxz]
            simp only [decide_eq_true_eq]
            omega
          · rw [if_neg hyz] at hbc
            have hlt2 : y.toNat < z.toNat := by simpa using hbc
            have hxz : x.toNat ≠ z.toNat := by omega
            rw [if_neg hxz]
            simp only [decide_eq_true_eq]
            omega

/-- Python dict lookup: value at the first occurrence of key `k`. -/
def dict_get (d : List (String × α)) (k : String) : Option α :=
  match d with
  | [] => none
  | (k1, v1) :: rest => if k1 = k then some v1 else dict_get rest k

/-- Python dict assignment `d[k] = v`: replace the value at the first
occurrence of `k` keeping its position, or append `(k, v)` at the end. -/
def dict_set (d : List (String × α)) (k : String) (v : α) : List (String × α) :=
  match d with
  | [] => [(k, v)]
  | (k1, v1) :: rest =>
    if k1 = k then (k1, v) :: rest else (k1, v1) :: dict_set rest k v

/-- Python `d.update(val)`: assign every key/value pair of `val` in order. -/
def dict_update (d val : List (String × α)) : List (String × α) :=
  val.foldl (fun acc kv => dict_set acc kv.1 kv.2) d

/-- Python `k in d`. -/
def dict_has (d : List (String × α)) (k : String) : Bool :=
  (dict_get d k).isSome

@[simp] theorem dict_get_nil (k : String) : dict_get ([] : List (String × α)) k = none := rfl

@[simp] theorem dict_get_cons (k1 : String) (v1 : α) (rest : List (String × α)) (k : String) :
    dict_get ((k1, v1) :: rest) k = if k1 = k then some v1 else dict_get rest k := rfl

@[simp] theorem dict_set_nil (k : String) (v : α) :
    dict_set ([] : List (String × α)) k v = [(k, v)] := rfl

theorem dict_get_dict_set (d : List (String × α)) (k k1 : String) (v : α) :
    dict_get (dict_set d k v) k1 = if k = k1 then some v else dict_get d k1 := by
  induction d with
  | nil =>
    by_cases h : k = k1 <;> simp [dict_set, dict_get, h]
  | cons hd tl ih =>
    obtain ⟨k2, v2⟩ := hd
    by_cases h2 : k2 = k
    · subst h2
      by_cases h1 : k2 = k1 <;> simp [dict_set, dict_get, h1]
    · simp only [dict_set, if_neg h2, dict_get_cons]
      by_cases h1 : k2 = k1
      · subst h1
        have hne : ¬ k = k2 := fun h => h2 h.symm
        simp [hne]
      · simp [h1, ih]

@[simp] theorem dict_get_dict_set_self (d : List (String × α)) (k : String) (v : α) :
    dict_get (dict_set d k v) k = some v := by
  simp [dict_get_dict_set]

theorem dict_get_dict_set_ne (d : List (String × α)) (k k1 : String) (v : α) (h : k ≠ k1) :
    dict_get (dict_set d k v) k1 = dict_get d k1 := by
  simp [dict_get_dict_set, h]

/-- Keys of a dict. -/
def dict_keys (d : List (String × α)) : List String := d.map (·.1)

theorem dict_get_eq_none_of_not_mem_keys (d : List (String × α)) (k : String)
    (h : k ∉ dict_keys d) : dict_get d k = none := by
  induction d with
  | nil => rfl
  | cons hd tl ih =>
    obtain ⟨k1, v1⟩ := hd
    simp only [dict_keys, List.map_cons, List.mem_cons, not_or] at h
    have h1 : ¬ k1 = k := fun hh => h.1 hh.symm
    simp [dict_get, h1, ih (by simpa [dict_keys] using h.2)]

theorem dict_keys_nodup_tail (k1 : String) (v1 : α) (tl : List (String × α))
    (h : (dict_keys ((k1, v1) :: tl)).Nodup) :
    k1 ∉ dict_keys tl ∧ (dict_keys tl).Nodup := by
  simpa [dict_keys] using h

/-- A key lookup after a merge: keys given by `val` (a genuine dict, so its
keys are distinct) take the merged value, all other keys keep their
previous value. -/
theorem dict_get_dict_update (d val : List (String × α)) (k : String)
    (hval : (dict_keys val).Nodup) :
    dict_get (dict_update d val) k = (dict_get val k).elim (dict_get d k) some := by
  induction val generalizing d with
  | nil => simp [dict_update]
  | cons hd tl ih =>
    obtain ⟨k1, v1⟩ := hd
    obtain ⟨hk1, htl⟩ := dict_keys_nodup_tail k1 v1 tl hval
    simp only [dict_update, List.foldl_cons] at *
    rw [ih _ htl]
    by_cases h1 : k1 = k
    · subst h1
      rw [dict_get_eq_none_of_not_mem_keys tl k1 hk1]
      simp [dict_get_dict_set]
    · simp [dict_get_dict_set_ne _ _ _ _ h1, h1]

/-- Replacing a present key by its present value leaves the dict unchanged. -/
theorem dict_set_eq_self (d : List (String × α)) (k : String) (v : α)
    (h : dict_get d k = some v) : dict_set d k v = d := by
  induction d with
  | nil => simp [dict_get] at h
  | cons hd tl ih =>
    obtain ⟨k1, v1⟩ := hd
    by_cases h1 : k1 = k
    · subst h1
      rw [dict_get_cons, if_pos rfl] at h
      obtain rfl : v1 = v := by injection h
      simp [dict_set]
    · simp only [dict_get_cons, if_neg h1] at h
      simp [dict_set, h1, ih h]

/-- A tag record as stored in the database: the dict keys `name` and
`translation`, each present (`some`) or absent (`none`). -/
structure Tag where
  name : Option String
  translation : Option String
deriving DecidableEq, Repr

/-- An image record as stored in the database: the `url` key and the
`fetched` key (absent means not fetched; every read uses default `False`). -/
structure Image where
  url : String
  fetched : Option Bool
deriving DecidableEq, Repr

/-- The JSON-like values the program stores inside an illust record. -/
inductive Val where
  | vbool (b : Bool)
  | vnat (n : Nat)
  | vstr (s : String)
  | vtags (ts : List Tag)
  | vimages (imgs : List Image)
deriving DecidableEq, Repr

/-- Python truthiness of a stored value. -/
def Val.truthy : Val → Bool
  | .vbool b => b
  | .vnat n => n ≠ 0
  | .vstr s => s ≠ ""
  | .vtags ts => ¬ ts.isEmpty
  | .vimages imgs => ¬ imgs.isEmpty

/-- An illust (or user) record: a Python dict from field name to value. -/
abbrev Rec := List (String × Val)

/-- The in-memory sync database: the `illusts` and `users` collections
(`SyncDB.data` in the source, with auxiliary keys such as the token left
out of scope). -/
structure SyncDB where
  illusts : List (String × Rec)
  users : List (String × Rec)
deriving DecidableEq, Repr

/-- `SyncDB.get_illust` (via `_get_dict`): `self.data['illusts'].get(id)`. -/
def get_illust (db : SyncDB) (illust_id : String) : Option Rec :=
  dict_get db.illusts illust_id

/-- `SyncDB._update_dict` on one collection: merge into the existing entry
or insert a copy of the partial fields if the id is absent. -/
def update_dict_coll (coll : List (String × Rec)) (id : String) (val : Rec) :
    List (String × Rec) :=
  match dict_get coll id with
  | some r => dict_set coll id (dict_update r val)
  | none => dict_set coll id val

/-- `SyncDB.update_illust`. -/
def update_illust (db : SyncDB) (illust_id : String) (val : Rec) : SyncDB :=
  { db with illusts := update_dict_coll db.illusts illust_id val }

/-- `SyncDB.update_user`. -/
def update_user (db : SyncDB) (user_id : String) (val : Rec) : SyncDB :=
  { db with users := update_dict_coll db.users user_id val }

/-- `SyncDB.set_illust_fetched`:
`self['illusts'][illust_id]['images'][image_id]['fetched'] = fetched`.
Returns `none` when the lookup chain raises (`KeyError` / `IndexError`):
the illust id is absent, the record has no image list, or the index is out
of range. -/
def set_illust_fetched (db : SyncDB) (illust_id : String) (image_id : Nat)
    (fetched : Bool) : Option SyncDB :=
  match dict_get db.illusts illust_id with
  | none => none
  | some r =>
    match dict_get r "images" with
    | some (Val.vimages imgs) =>
      match imgs.get? image_id with
      | none => none
      | some img =>
        some { db with
          illusts := dict_set db.illusts illust_id
            (dict_set r "images"
              (Val.vimages (imgs.set image_id { img with fetched := some fetched }))) }
    | _ => none

/-! ## Filter policy (`is_set_intersect`, `is_illust_excluded`) -/

/-- `is_set_intersect(a, b)`: some gathered value of the item occurs in the
configured set `b`.  Configured sets hold strings, so a non-string gathered
value never matches (Python equality of a non-string with a string). -/
def is_set_intersect (a : List Val) (b : List String) : Bool :=
  a.any (fun v => match v with
    | .vstr s => b.contains s
    | _ => false)

/-- The filtering configuration: `config['includes']` and
`config['excludes']`, each a dict from fact-set name to a set of strings. -/
structure FilterConfig where
  includes : List (String × List String)
  excludes : List (String × List String)
deriving DecidableEq, Repr

/-- The `authors` fact list gathered from an illust record:
`[illust[k] for k in ('author_id', 'author_name') if k in illust]`. -/
def illust_info_authors (illust : Rec) : List Val :=
  ["author_id", "author_name"].filterMap (fun k => dict_get illust k)

/-- The `tags` fact list gathered from an illust record: for each stored
tag, its `name` and `translation` values, when present. -/
def illust_info_tags (illust : Rec) : List Val :=
  match dict_get illust "tags" with
  | some (.vtags ts) =>
    ts.flatMap (fun t => (t.name.toList ++ t.translation.toList).map Val.vstr)
  | _ => []

/-- The gathered fact list for one fact-set name (`info[k]` in the source;
only the keys `authors` and `tags` ever occur). -/
def illust_info (illust : Rec) (k : String) : List Val :=
  if k = "authors" then illust_info_authors illust else illust_info_tags illust

/-- `{k: rules[k] for k in info if k in rules}`: the configured rules
restricted to the two fact-set names of the item, in `info` order. -/
def restrict_rules (rules : List (String × List String)) :
    List (String × List String) :=
  ["authors", "tags"].filterMap (fun k => (dict_get rules k).map (fun v => (k, v)))

/-- `is_illust_excluded(config, illust)`. -/
def is_illust_excluded (config : FilterConfig) (illust : Rec) : Bool :=
  let inc := restrict_rules config.includes
  let exc := restrict_rules config.excludes
  if !inc.isEmpty && !(inc.any (fun kv => is_set_intersect (illust_info illust kv.1) kv.2)) then
    true
  else if !exc.isEmpty && exc.any (fun kv => is_set_intersect (illust_info illust kv.1) kv.2) then
    true
  else
    false

/-! ## Metadata extraction (`extract_illust_data`) -/

/-- A raw tag in a provider response: `t.get('name')` and
`t.get('translated_name')` (`none` models both an absent key and `None`). -/
structure RawTag where
  name : Option String
  translated_name : Option String
deriving DecidableEq, Repr

/-- A raw illust item in a provider response, carrying the fields
`extract_illust_data` reads.  `meta_single_page` is `some url` when the
single-page dict is non-empty, and `meta_pages` lists the original image
urls of a multi-page item. -/
structure RawIllust where
  id : Nat
  title : String
  create_date : String
  user_id : Nat
  user_name : String
  tags : List RawTag
  width : Nat
  height : Nat
  meta_single_page : Option String
  meta_pages : List String
deriving DecidableEq, Repr

/-- `get_tags` inside `extract_illust_data`: keep tags with a truthy name;
`filter_dict` drops the translation when it is falsy. -/
def extract_tags (ts : List RawTag) : List Tag :=
  ts.filterMap (fun t =>
    match t.name with
    | none => none
    | some n =>
      if n = "" then none
      else some { name := some n,
                  translation := match t.translated_name with
                    | some tr => if tr = "" then none else some tr
                    | none => none })

/-- `extract_illust_data(illust)`: the stored record of a new item.  (The
source's malformed-response check `any(not v for v in r)` iterates the dict
keys, which are non-empty literals, so it never fires.) -/
def extract_illust_data (illust : RawIllust) : Rec :=
  let images : List Image :=
    match illust.meta_single_page with
    | some url => [{ url := url, fetched := none }]
    | none => illust.meta_pages.map (fun url => { url := url, fetched := none })
  [("id", .vstr (toString illust.id)),
   ("title", .vstr illust.title),
   ("create_time", .vstr illust.create_date),
   ("author_id", .vstr (toString illust.user_id)),
   ("author_name", .vstr illust.user_name),
   ("tags", .vtags (extract_tags illust.tags)),
   ("width", .vnat illust.width),
   ("height", .vnat illust.height),
   ("images", .vimages images)]

/-! ## Discovery (`update_list.store_illust` and bookmark pagination) -/

/-- Python truthiness of `sync_db.get_illust(id)`: a present, non-empty
record.  (`get_illust` returns `None` for absent ids, and an empty dict is
falsy too.) -/
def rec_truthy : Option Rec → Bool
  | none => false
  | some r => !r.isEmpty

/-- `update_list.store_illust`: skip the id when its stored record is
truthy; otherwise extract, filter into `_deleted`, store and count. -/
def store_illust (config : FilterConfig) (db : SyncDB) (illust : RawIllust)
    (counter : Nat) : SyncDB × Nat :=
  let illust_id := toString illust.id
  if rec_truthy (get_illust db illust_id) then (db, counter)
  else
    let item := extract_illust_data illust
    let item := dict_set item "_deleted" (.vbool (is_illust_excluded config item))
    if item.isEmpty then (db, counter)
    else (update_illust db illust_id item, counter + 1)

/-- The per-page body of both discovery loops: store every item of the
page in order, threading the new-item counter. -/
def store_all (config : FilterConfig) (db : SyncDB) (illusts : List RawIllust)
    (counter : Nat) : SyncDB × Nat :=
  illusts.foldl (fun p il => store_illust config p.1 il p.2) (db, counter)

/-- Match `max_bookmark_id=` at the head of `cs`, returning the maximal
nonempty digit run that follows, provided the run is followed by `&` or the
end of the string (the `(?:&|$)` tail of the source pattern). -/
def match_mbid (cs : List Char) : Option String :=
  let key := "max_bookmark_id=".toList
  if chars_startswith key cs then
    let tail := cs.drop key.length
    let ds := tail.takeWhile Char.isDigit
    if ds.isEmpty then none
    else
      match tail.drop ds.length with
      | [] => some (String.mk ds)
      | c :: _ => if c = '&' then some (String.mk ds) else none
  else none

/-- Scan left to right for positions holding `?` or `&` followed by a
cursor assignment, keeping the rightmost hit (the greedy leading `.*` of
the source pattern backtracks to the rightmost matchable occurrence). -/
def parse_scan (cs : List Char) (acc : Option String) : Option String :=
  match cs with
  | [] => acc
  | c :: rest =>
    let acc2 :=
      if c = '?' ∨ c = '&' then
        match match_mbid rest with
        | some ds => some ds
        | none => acc
      else acc
    parse_scan rest acc2

/-- `re.match(r'.*[?&]max_bookmark_id=(\d+)(?:&|$)', next_url)`, for
newline-free urls (`.` does not cross newlines; provider urls have none). -/
def parse_max_bookmark_id (url : String) : Option String :=
  parse_scan url.toList none

/-- One page of the bookmark listing: the parsed `illusts` array and the
`next_url` value (`none` models JSON `null`). -/
structure BookmarkPage where
  illusts : List RawIllust
  next_url : Option String

/-- The bookmark pagination loop of `update_list` for one favourite class.
`provider` maps a `max_bookmark_id` cursor to the page the remote returns.
The result records the cursor of every request made, in order, with the
final store and counter; `none` means the fuel ran out before the loop
exited.  Mirrors the source exactly: an empty page breaks; a page with no
newly stored ids breaks; a truthy `next_url` that parses moves to the
parsed cursor; a truthy `next_url` that does not parse breaks; a falsy
`next_url` falls through to the next iteration with the same cursor. -/
def bookmark_pull (provider : Option String → BookmarkPage) (config : FilterConfig) :
    Nat → Option String → SyncDB → Nat → Option (List (Option String) × SyncDB × Nat)
  | 0, _, _, _ => none
  | fuel + 1, cursor, db, counter =>
    let r := provider cursor
    if r.illusts.isEmpty then some ([cursor], db, counter)
    else
      let p := store_all config db r.illusts counter
      if p.2 = counter then some ([cursor], p.1, p.2)
      else
        match r.next_url with
        | some u =>
          if u = "" then
            (bookmark_pull provider config fuel cursor p.1 p.2).map
              (fun q => (cursor :: q.1, q.2))
          else
            match parse_max_bookmark_id u with
            | some c =>
              (bookmark_pull provider config fuel (some c) p.1 p.2).map
                (fun q => (cursor :: q.1, q.2))
            | none => some ([cursor], p.1, p.2)
        | none =>
          (bookmark_pull provider config fuel cursor p.1 p.2).map
            (fun q => (cursor :: q.1, q.2))

/-! ## Download job construction (`fetch_images`) -/

/-- `image_url.rsplit('/', 1)[-1]`: the part after the last slash (code
point 47), or the whole string when it has no slash. -/
def last_segment (url : String) : String :=
  String.mk ((url.toList.reverse.takeWhile (fun c => c.toNat != 47)).reverse)

/-- `os.path.join` for the relative path segments this program builds. -/
def path_join (a b : String) : String := a ++ "/" ++ b

/-- The `FetchImageJob` dataclass. -/
structure FetchImageJob where
  file_path : String
  image_url : String
  illust_id : String
  image_id : Nat
deriving DecidableEq, Repr

/-- The jobs contributed by one illust record in the build step of
`fetch_images`: skip deleted records; otherwise read the author name, pick
the per-illust directory when the record has more than one image, and emit
one job per unfetched image position.  `none` models the uncaught
exceptions of the source on records without a usable `author_name` or
`images` field. -/
def illust_jobs (download_dir illust_id : String) (illust : Rec) :
    Option (List FetchImageJob) :=
  if Val.truthy ((dict_get illust "_deleted").getD (.vbool false)) then some []
  else
    match dict_get illust "author_name" with
    | some (.vstr author_name) =>
      let parent0 := path_join download_dir author_name
      match dict_get illust "images" with
      | some (.vimages imgs) =>
        let parent := if imgs.length > 1 then path_join parent0 illust_id else parent0
        some (imgs.enum.filterMap (fun p =>
          if p.2.fetched.getD false then none
          else some { file_path := path_join parent (last_segment p.2.url),
                      image_url := p.2.url,
                      illust_id := illust_id,
                      image_id := p.1 }))
      | _ => none
    | _ => none

/-- The unsorted job list accumulated over the store's records in order. -/
def jobs_of_list (download_dir : String) :
    List (String × Rec) → Option (List FetchImageJob)
  | [] => some []
  | (id, r) :: rest =>
    match illust_jobs download_dir id r with
    | none => none
    | some js =>
      match jobs_of_list download_dir rest with
      | none => none
      | some tail => some (js ++ tail)

/-- The sort key comparison `lambda o: o.file_path`. -/
def job_le (a b : FetchImageJob) : Prop := py_str_le a.file_path b.file_path = true

instance : DecidableRel job_le := fun a b => by unfold job_le; infer_instance

instance : IsTotal FetchImageJob job_le :=
  ⟨fun a b => chars_le_total a.file_path.toList b.file_path.toList⟩

instance : IsTrans FetchImageJob job_le :=
  ⟨fun a b c h1 h2 =>
    chars_le_trans a.file_path.toList b.file_path.toList c.file_path.toList h1 h2⟩

/-- The job-building step of `fetch_images`: all pending jobs, sorted by
destination path (Python `list.sort` is stable, as is insertion sort). -/
def fetch_image_jobs (db : SyncDB) (download_dir : String) :
    Option (List FetchImageJob) :=
  (jobs_of_list download_dir db.illusts).map (fun js => js.insertionSort job_le)

/-! ## Filesystem and fallible I/O -/

/-- The local filesystem as seen by the program: the set of file paths and
the set of directory paths under the download directory (duplicate-free
lists, used as finite sets). -/
structure FS where
  files : List String
  dirs : List String
deriving DecidableEq, Repr

/-- `os.path.exists`. -/
def path_exists (fs : FS) (p : String) : Prop := p ∈ fs.files ∨ p ∈ fs.dirs

instance (fs : FS) (p : String) : Decidable (path_exists fs p) := by
  unfold path_exists; infer_instance

/-- `os.path.split(p)[0]`: everything before the last slash. -/
def path_parent (p : String) : String :=
  String.mk (((p.toList.reverse.dropWhile (fun c => c.toNat != 47)).drop 1).reverse)

/-- Outcome of one `api.download` call: success, failure leaving a partial
file at the destination, or failure leaving nothing. -/
inductive DlResult where
  | ok
  | failPartial
  | failClean
deriving DecidableEq, Repr

/-- The environment driving the fallible I/O calls: the outcome of each
download, and whether `os.remove` / `shutil.rmtree` raise on a path. -/
structure IOEnv where
  dl : FetchImageJob → DlResult
  removeFails : String → Bool
  rmtreeFails : String → Bool

/-- The best-effort `os.remove` in an `except ... pass` block. -/
def os_remove_best_effort (env : IOEnv) (fs : FS) (p : String) : FS :=
  if env.removeFails p then fs else { fs with files := fs.files.erase p }

/-- `fetch_images.f_download`: make the parent directory, attempt the
download; on success mark the image fetched, on any failure (including a
failing completion-marking) best-effort delete the destination file. -/
def f_download (env : IOEnv) (st : SyncDB × FS) (job : FetchImageJob) :
    SyncDB × FS :=
  let db := st.1
  let fs0 := st.2
  let parent := path_parent job.file_path
  let fs1 : FS := { fs0 with dirs := fs0.dirs.insert parent }
  match env.dl job with
  | .ok =>
    let fs2 : FS := { fs1 with files := fs1.files.insert job.file_path }
    match set_illust_fetched db job.illust_id job.image_id true with
    | some db2 => (db2, fs2)
    | none => (db, os_remove_best_effort env fs2 job.file_path)
  | .failPartial =>
    let fs2 : FS := { fs1 with files := fs1.files.insert job.file_path }
    (db, os_remove_best_effort env fs2 job.file_path)
  | .failClean => (db, os_remove_best_effort env fs1 job.file_path)

/-! ## Removal (`_remove_illust`) -/

/-- The body of the per-image loop in `_remove_illust` for the image at
position `i`: skip unfetched images; treat a missing file as already
removed; on a failing delete leave `fetched` untouched; otherwise clear the
`fetched` flag.  `none` models an uncaught `set_illust_fetched` failure. -/
def remove_image_step (env : IOEnv) (illust_id parent : String)
    (st : SyncDB × FS) (i : Nat) (img : Image) : Option (SyncDB × FS) :=
  let db := st.1
  let fs := st.2
  if !(img.fetched.getD false) then some (db, fs)
  else
    let file_path := path_join parent (last_segment img.url)
    if file_path ∈ fs.files then
      if env.removeFails file_path then some (db, fs)
      else
        (set_illust_fetched db illust_id i false).map
          (fun db2 => (db2, { fs with files := fs.files.erase file_path }))
    else
      (set_illust_fetched db illust_id i false).map (fun db2 => (db2, fs))

/-- The whole per-image loop of `_remove_illust`, over the record's image
list read once before the loop, threading the store and filesystem. -/
def remove_images (env : IOEnv) (illust_id parent : String)
    (imgs : List Image) (st : SyncDB × FS) : Option (SyncDB × FS) :=
  imgs.enum.foldlM (fun s p => remove_image_step env illust_id parent s p.1 p.2) st

/-- `shutil.rmtree`: drop the directory and everything below it. -/
def rmtree (fs : FS) (dir : String) : FS :=
  { files := fs.files.filter (fun f => !(str_startswith f (dir ++ "/"))),
    dirs := (fs.dirs.filter (fun d => !(str_startswith d (dir ++ "/")))).erase dir }

/-- One iteration of `_remove_illust` for one id: skip falsy records;
delete the fetched images, clearing their flags as they go; best-effort
remove the per-illust directory in the multi-image case; finally assert
`_deleted`.  `none` models the source crashing on a record without a
usable `author_name` or a non-list `images` value. -/
def remove_one (env : IOEnv) (download_dir : String) (st : SyncDB × FS)
    (illust_id : String) : Option (SyncDB × FS) :=
  let db := st.1
  match dict_get db.illusts illust_id with
  | none => some st
  | some illust =>
    if illust.isEmpty then some st
    else
      match dict_get illust "author_name" with
      | some (.vstr author_name) =>
        let parent0 := path_join download_dir author_name
        let images : Option (List Image) :=
          match dict_get illust "images" with
          | some (.vimages imgs) => some imgs
          | none => some []
          | some _ => none
        match images with
        | none => none
        | some imgs =>
          let multi := imgs.length > 1
          let parent := if multi then path_join parent0 illust_id else parent0
          match remove_images env illust_id parent imgs st with
          | none => none
          | some st2 =>
            let fs3 :=
              if multi ∧ path_exists st2.2 parent then
                (if env.rmtreeFails parent then st2.2 else rmtree st2.2 parent)
              else st2.2
            some (update_illust st2.1 illust_id [("_deleted", .vbool true)], fs3)
      | _ => none

/-- `_remove_illust(download_dir, sync_db, illust_ids)`. -/
def remove_illust (env : IOEnv) (download_dir : String) (st : SyncDB × FS)
    (illust_ids : List String) : Option (SyncDB × FS) :=
  illust_ids.foldlM (fun s id => remove_one env download_dir s id) st

/-! ## Persistence (`SyncDB.save` backup rotation) -/

/-- Python list slicing `l[:n]` for a possibly negative stop. -/
def python_slice_to (l : List α) (n : Int) : List α :=
  if 0 ≤ n then l.take n.toNat
  else l.take (l.length - (-n).toNat)

/-- The membership test of the cleanup loop:
`e.startswith(file_name + '-') and e != file_name`. -/
def is_backup_name (file_name e : String) : Bool :=
  str_startswith e (file_name ++ "-") && e != file_name

/-- One `save(max_backup)` call, modelling the parent directory as the set
of entry names.  When the store file exists it is renamed to a timestamped
backup, the (sorted) backup names are pruned with the source's slice
`backup_list[:len(backup_list) - max_backup]`, and the store file is
written back. -/
def save_step (dir : List String) (file_name suffix : String)
    (max_backup : Nat) : List String :=
  if file_name ∈ dir then
    let backup := file_name ++ "-" ++ suffix
    let dir1 := (dir.erase file_name).insert backup
    let backup_list :=
      (dir1.filter (fun e => is_backup_name file_name e)).insertionSort
        (fun a b => py_str_le a b = true)
    let junk := python_slice_to backup_list
      ((backup_list.length : Int) - (max_backup : Int))
    let dir2 := dir1.filter (fun e => e ∉ junk)
    dir2.insert file_name
  else dir.insert file_name

/-- A run of consecutive `save` calls with the given timestamp suffixes. -/
def save_runs (dir : List String) (file_name : String)
    (suffixes : List String) (max_backup : Nat) : List String :=
  suffixes.foldl (fun d s => save_step d file_name s max_backup) dir

/-! ## Claim C8: `_update_dict` is insert-or-shallow-merge -/

/-- C8.  For every collection, id and partial-fields dict,
`RecordStore.update` (`update_illust`/`update_user` via `_update_dict`)
inserts a copy of the partial fields when the id is absent; when the id is
present it shallow-merges: exactly the given fields are added or
overwritten, every other stored field keeps its value (so no key is ever
removed), and all other ids are untouched. -/
theorem update_dict_shallow_merge (coll : List (String × Rec)) (id : String)
    (val : Rec) (hval : (dict_keys val).Nodup) :
    (dict_get coll id = none →
      dict_get (update_dict_coll coll id val) id = some val) ∧
    (∀ r, dict_get coll id = some r →
      ∃ r2, dict_get (update_dict_coll coll id val) id = some r2 ∧
        ∀ k, dict_get r2 k = (dict_get val k).elim (dict_get r k) some) ∧
    (∀ id2, id2 ≠ id →
      dict_get (update_dict_coll coll id val) id2 = dict_get coll id2) := by
  refine ⟨fun habs => ?_, fun r hr => ?_, fun id2 hne => ?_⟩
  · simp [update_dict_coll, habs]
  · refine ⟨dict_update r val, ?_, fun k => dict_get_dict_update r val k hval⟩
    simp [update_dict_coll, hr]
  · unfold update_dict_coll
    cases dict_get coll id with
    | none => exact dict_get_dict_set_ne _ _ _ _ (fun h => hne h.symm)
    | some r => exact dict_get_dict_set_ne _ _ _ _ (fun h => hne h.symm)

/-- Witness for C8 at a concrete store: merging `width, _deleted` into an
existing record overwrites `width`, adds `_deleted`, and keeps `title`. -/
theorem update_dict_shallow_merge_witness :
    ((dict_keys ([("width", Val.vnat 9), ("_deleted", Val.vbool true)] : Rec)).Nodup) ∧
    (dict_get ([("7", [("title", Val.vstr "t"), ("width", Val.vnat 1)])] :
        List (String × Rec)) "7" = some [("title", Val.vstr "t"), ("width", Val.vnat 1)]) ∧
    (∃ r2, dict_get (update_dict_coll
        [("7", [("title", Val.vstr "t"), ("width", Val.vnat 1)])] "7"
        [("width", Val.vnat 9), ("_deleted", Val.vbool true)]) "7" = some r2 ∧
      ∀ k, dict_get r2 k =
        (dict_get ([("width", Val.vnat 9), ("_deleted", Val.vbool true)] : Rec) k).elim
          (dict_get ([("title", Val.vstr "t"), ("width", Val.vnat 1)] : Rec) k) some) := by
  refine ⟨by decide, by decide, ?_⟩
  exact (update_dict_shallow_merge
    [("7", [("title", Val.vstr "t"), ("width", Val.vnat 1)])] "7"
    [("width", Val.vnat 9), ("_deleted", Val.vbool true)] (by decide)).2.1
    [("title", Val.vstr "t"), ("width", Val.vnat 1)] (by decide)

/-! ## Additional dict lemmas -/

theorem dict_set_append (d : List (String × α)) (k : String) (v : α)
    (h : k ∉ dict_keys d) : dict_set d k v = d ++ [(k, v)] := by
  induction d with
  | nil => rfl
  | cons hd tl ih =>
    obtain ⟨k1, v1⟩ := hd
    simp only [dict_keys, List.map_cons, List.mem_cons, not_or] at h
    have h1 : ¬ k1 = k := fun hh => h.1 hh.symm
    simp [dict_set, h1, ih (by simpa [dict_keys] using h.2)]

theorem dict_update_append (d val : List (String × α))
    (hval : (dict_keys val).Nodup)
    (hdis : ∀ k, k ∈ dict_keys val → k ∉ dict_keys d) :
    dict_update d val = d ++ val := by
  induction val generalizing d with
  | nil => simp [dict_update]
  | cons hd tl ih =>
    obtain ⟨k1, v1⟩ := hd
    obtain ⟨hk1, htl⟩ := dict_keys_nodup_tail k1 v1 tl hval
    have hk1d : k1 ∉ dict_keys d := hdis k1 (by simp [dict_keys])
    simp only [dict_update, List.foldl_cons]
    rw [show List.foldl (fun acc kv => dict_set acc kv.1 kv.2) (dict_set d k1 v1) tl
        = dict_update (dict_set d k1 v1) tl from rfl]
    rw [dict_set_append d k1 v1 hk1d]
    rw [ih (d ++ [(k1, v1)]) htl ?_]
    · simp
    · intro k hk
      have hkd : k ∉ dict_keys d := hdis k (by
        simp only [dict_keys, List.map_cons, List.mem_cons]
        right
        simpa [dict_keys] using hk)
      have hkk1 : k ≠ k1 := by
        intro hh
        subst hh
        exact hk1 hk
      simp only [dict_keys, List.map_append, List.map_cons, List.map_nil,
        List.mem_append, List.mem_singleton, not_or]
      exact ⟨by simpa [dict_keys] using hkd, hkk1⟩

theorem dict_set_ne_nil (d : List (String × α)) (k : String) (v : α) :
    dict_set d k v ≠ [] := by
  cases d with
  | nil => simp [dict_set]
  | cons hd tl =>
    obtain ⟨k1, v1⟩ := hd
    by_cases h : k1 = k <;> simp [dict_set, h]

/-! ## Claim C2: discovery is append-only on known ids -/

/-- C2 (amended to truthy records).  During discovery, an id whose stored
record is non-empty is skipped entirely (store and counter unchanged);
when the stored record is falsy (absent, or present as an empty record),
a fresh record is extracted, filtered into `_deleted` and stored, and the
counter increments. -/
theorem store_illust_dedup (config : FilterConfig) (db : SyncDB)
    (raw : RawIllust) (counter : Nat) :
    (∀ r, get_illust db (toString raw.id) = some r → r ≠ [] →
      store_illust config db raw counter = (db, counter)) ∧
    (rec_truthy (get_illust db (toString raw.id)) = false →
      (store_illust config db raw counter).2 = counter + 1 ∧
      (store_illust config db raw counter).1.users = db.users ∧
      (∀ id2, id2 ≠ toString raw.id →
        dict_get (store_illust config db raw counter).1.illusts id2 =
          dict_get db.illusts id2) ∧
      dict_get (store_illust config db raw counter).1.illusts (toString raw.id) =
        some (dict_set (extract_illust_data raw) "_deleted"
          (.vbool (is_illust_excluded config (extract_illust_data raw))))) := by
  constructor
  · intro r hr hne
    have htruthy : rec_truthy (get_illust db (toString raw.id)) = true := by
      rw [hr]
      simpa [rec_truthy, List.isEmpty_iff] using hne
    simp [store_illust, htruthy]
  · intro hfalsy
    have hkeys : ("_deleted" : String) ∉ dict_keys (extract_illust_data raw) := by
      simp [extract_illust_data, dict_keys]
    have hitem : dict_set (extract_illust_data raw) "_deleted"
        (.vbool (is_illust_excluded config (extract_illust_data raw)))
        = extract_illust_data raw ++
          [("_deleted", .vbool (is_illust_excluded config (extract_illust_data raw)))] :=
      dict_set_append _ _ _ hkeys
    have hitem_keys : (dict_keys (dict_set (extract_illust_data raw) "_deleted"
        (.vbool (is_illust_excluded config (extract_illust_data raw))))).Nodup := by
      rw [hitem]
      simp [extract_illust_data, dict_keys]
    have hne2 : ¬ (dict_set (extract_illust_data raw) "_deleted"
        (.vbool (is_illust_excluded config (extract_illust_data raw)))).isEmpty := by
      simpa [List.isEmpty_iff] using dict_set_ne_nil (extract_illust_data raw) "_deleted" _
    have hres : store_illust config db raw counter =
        (update_illust db (toString raw.id)
          (dict_set (extract_illust_data raw) "_deleted"
            (.vbool (is_illust_excluded config (extract_illust_data raw)))), counter + 1) := by
      simp [store_illust, hfalsy, hne2]
    rw [hres]
    refine ⟨rfl, rfl, fun id2 hne => ?_, ?_⟩
    · exact (update_dict_shallow_merge db.illusts (toString raw.id) _ hitem_keys).2.2 id2 hne
    · cases hr : dict_get db.illusts (toString raw.id) with
      | none =>
        exact (update_dict_shallow_merge db.illusts (toString raw.id) _ hitem_keys).1 hr
      | some r =>
        have hr0 : r = [] := by
          have := hfalsy
          rw [rec_truthy.eq_def] at this
          simp only [get_illust, hr] at this
          simpa [List.isEmpty_iff] using this
        subst hr0
        unfold update_illust update_dict_coll
        rw [hr]
        simp only
        rw [dict_update_append [] _ hitem_keys (by simp [dict_keys])]
        simp [dict_get_dict_set_self]

/-- Empty filter configuration fixture. -/
def cfg_empty : FilterConfig := { includes := [], excludes := [] }

/-- A raw provider item with id 5 and a single image. -/
def raw_item5 : RawIllust :=
  { id := 5
    title := "t"
    create_date := "d"
    user_id := 3
    user_name := "a"
    tags := []
    width := 1
    height := 1
    meta_single_page := some "u/x.jpg"
    meta_pages := [] }

/-- A store in which id `5` is present but mapped to the empty record. -/
def db_with_empty5 : SyncDB := { illusts := [("5", [])], users := [] }

/-- A store in which id `5` is present with a non-empty record. -/
def db_with_rec5 : SyncDB :=
  { illusts := [("5", [("title", Val.vstr "old")])], users := [] }

/-- C2 counterexample: the id `5` is present in the store (mapped to the
empty record), yet `store_illust` re-extracts, overwrites the record and
counts the item as newly discovered: the source skips on record
truthiness, not on key presence. -/
theorem store_illust_overwrites_present_empty_record :
    dict_get db_with_empty5.illusts "5" = some [] ∧
    (store_illust cfg_empty db_with_empty5 raw_item5 0).2 = 1 ∧
    dict_get (store_illust cfg_empty db_with_empty5 raw_item5 0).1.illusts "5" ≠
      some [] := by
  refine ⟨by decide, by decide, by decide⟩

/-- Witness for C2 at a concrete store: id `5` is present with a non-empty
record and `store_illust` leaves store and counter untouched. -/
theorem store_illust_dedup_witness :
    get_illust db_with_rec5 (toString raw_item5.id) =
      some [("title", Val.vstr "old")] ∧
    ([("title", Val.vstr "old")] : Rec) ≠ [] ∧
    store_illust cfg_empty db_with_rec5 raw_item5 3 = (db_with_rec5, 3) :=
  ⟨by decide, by decide,
    (store_illust_dedup cfg_empty db_with_rec5 raw_item5 3).1
      [("title", Val.vstr "old")] (by decide) (by decide)⟩

/-! ## Claim C3: the include/exclude decision -/

theorem mem_restrict_rules (rules : List (String × List String)) (k : String)
    (vs : List String) :
    (k, vs) ∈ restrict_rules rules ↔
      (k = "authors" ∨ k = "tags") ∧ dict_get rules k = some vs := by
  simp only [restrict_rules, List.mem_filterMap, List.mem_cons, List.mem_singleton,
    List.not_mem_nil, or_false, Option.map_eq_some']
  constructor
  · rintro ⟨k0, hk0, v, hv, heq⟩
    obtain rfl : k0 = k := congrArg Prod.fst heq
    obtain rfl : v = vs := congrArg Prod.snd heq
    exact ⟨hk0, hv⟩
  · rintro ⟨hk, hv⟩
    exact ⟨k, hk, vs, hv, rfl⟩

theorem restrict_rules_eq_nil_iff (rules : List (String × List String)) :
    restrict_rules rules = [] ↔
      dict_get rules "authors" = none ∧ dict_get rules "tags" = none := by
  cases h1 : dict_get rules "authors" <;> cases h2 : dict_get rules "tags" <;>
    simp [restrict_rules, h1, h2]

theorem cond_chain_eq_or (p q : Prop) [Decidable p] [Decidable q] :
    ((if p then true else if q then true else false) = true) ↔ (p ∨ q) := by
  by_cases hp : p <;> by_cases hq : q <;> simp [hp, hq]

/-- C3.  `is_illust_excluded` returns `true` exactly when (1) some include
rule is configured for `authors` or `tags` and no configured include fact
set intersects the item's gathered values for its fact-set name, or
(2) some configured exclude fact set intersects them; the two conditions
are independent disjuncts, so a matching include cannot override a
matching exclude. -/
theorem is_illust_excluded_iff (config : FilterConfig) (illust : Rec) :
    is_illust_excluded config illust = true ↔
      ((((dict_get config.includes "authors").isSome ∨
          (dict_get config.includes "tags").isSome) ∧
        ¬ ∃ k vs, (k = "authors" ∨ k = "tags") ∧
            dict_get config.includes k = some vs ∧
            is_set_intersect (illust_info illust k) vs = true) ∨
       (∃ k vs, (k = "authors" ∨ k = "tags") ∧
            dict_get config.excludes k = some vs ∧
            is_set_intersect (illust_info illust k) vs = true)) := by
  have hany : ∀ rules : List (String × List String),
      ((restrict_rules rules).any
        (fun kv => is_set_intersect (illust_info illust kv.1) kv.2) = true) ↔
      ∃ k vs, (k = "authors" ∨ k = "tags") ∧ dict_get rules k = some vs ∧
        is_set_intersect (illust_info illust k) vs = true := by
    intro rules
    rw [List.any_eq_true]
    constructor
    · rintro ⟨⟨k, vs⟩, hmem, hint⟩
      obtain ⟨hk, hget⟩ := (mem_restrict_rules rules k vs).mp hmem
      exact ⟨k, vs, hk, hget, hint⟩
    · rintro ⟨k, vs, hk, hget, hint⟩
      exact ⟨(k, vs), (mem_restrict_rules rules k vs).mpr ⟨hk, hget⟩, hint⟩
  have hany2 : ∀ rules : List (String × List String),
      ((restrict_rules rules).any
        (fun kv => is_set_intersect (illust_info illust kv.1) kv.2) = false) ↔
      ¬ ∃ k vs, (k = "authors" ∨ k = "tags") ∧ dict_get rules k = some vs ∧
        is_set_intersect (illust_info illust k) vs = true := by
    intro rules
    rw [← Bool.not_eq_true]
    exact not_congr (hany rules)
  have hneF : ∀ rules : List (String × List String),
      ((restrict_rules rules).isEmpty = false) ↔
      ((dict_get rules "authors").isSome ∨ (dict_get rules "tags").isSome) := by
    intro rules
    have hmem : (∃ x, x ∈ restrict_rules rules) ↔
        ((dict_get rules "authors").isSome ∨ (dict_get rules "tags").isSome) := by
      constructor
      · rintro ⟨⟨k, vs⟩, hmemx⟩
        obtain ⟨hk, hget⟩ := (mem_restrict_rules rules k vs).mp hmemx
        rcases hk with rfl | rfl
        · exact Or.inl (by simp [hget])
        · exact Or.inr (by simp [hget])
      · rintro (h | h)
        · obtain ⟨vs, hvs⟩ := Option.isSome_iff_exists.mp h
          exact ⟨("authors", vs), (mem_restrict_rules rules _ _).mpr ⟨Or.inl rfl, hvs⟩⟩
        · obtain ⟨vs, hvs⟩ := Option.isSome_iff_exists.mp h
          exact ⟨("tags", vs), (mem_restrict_rules rules _ _).mpr ⟨Or.inr rfl, hvs⟩⟩
    rw [← hmem]
    cases hr : restrict_rules rules with
    | nil => simp [List.isEmpty]
    | cons hd tl => simp [List.isEmpty]
  simp only [is_illust_excluded, Bool.and_eq_true, Bool.not_eq_true']
  rw [cond_chain_eq_or, hneF config.includes, hneF config.excludes,
    hany2 config.includes, hany config.excludes]
  refine or_congr Iff.rfl (and_iff_right_iff_imp.mpr ?_)
  rintro ⟨k, vs, hk, hget, _⟩
  rcases hk with rfl | rfl
  · exact Or.inl (by simp [hget])
  · exact Or.inr (by simp [hget])

/-! ## Claim C1: bookmark pagination control flow -/

theorem bookmark_pull_head (prov : Option String → BookmarkPage)
    (cfg : FilterConfig) (fuel : Nat) (cursor : Option String) (db : SyncDB)
    (counter : Nat) (q : List (Option String) × SyncDB × Nat)
    (h : bookmark_pull prov cfg fuel cursor db counter = some q) :
    q.1.head? = some cursor := by
  cases fuel with
  | zero => simp [bookmark_pull] at h
  | succ n =>
    simp only [bookmark_pull] at h
    split at h
    · obtain rfl := Option.some.inj h
      rfl
    · split at h
      · obtain rfl := Option.some.inj h
        rfl
      · split at h
        · split at h
          · obtain ⟨qq, hqq, rfl⟩ := Option.map_eq_some'.mp h
            rfl
          · split at h
            · obtain ⟨qq, hqq, rfl⟩ := Option.map_eq_some'.mp h
              rfl
            · obtain rfl := Option.some.inj h
              rfl
        · obtain ⟨qq, hqq, rfl⟩ := Option.map_eq_some'.mp h
          rfl

/-- C1 (amended).  For one favourite class's pagination, with the state at
the current iteration given: the loop stops after the current request
exactly when the page is empty, or it yields zero newly-stored ids, or a
truthy next-page link exists from which no cursor can be parsed; when the
provider signals no next page (absent or empty link) but the page
discovered new ids, the loop does NOT stop: it issues another request
re-using the unchanged cursor; and whenever a cursor is parsed from a
truthy link, the next request uses exactly the parsed cursor. -/
theorem bookmark_pagination_spec (prov : Option String → BookmarkPage)
    (cfg : FilterConfig) (fuel : Nat) (cursor : Option String) (db : SyncDB)
    (counter : Nat) :
    (((bookmark_pull prov cfg (fuel + 1) cursor db counter).map
        (fun q => q.1.length) = some 1) ↔
      ((prov cursor).illusts.isEmpty = true ∨
       (store_all cfg db (prov cursor).illusts counter).2 = counter ∨
       (∃ u, (prov cursor).next_url = some u ∧ u ≠ "" ∧
          parse_max_bookmark_id u = none))) ∧
    (∀ q, bookmark_pull prov cfg (fuel + 1) cursor db counter = some q →
      (prov cursor).illusts.isEmpty = false →
      (store_all cfg db (prov cursor).illusts counter).2 ≠ counter →
      ((∀ u c, (prov cursor).next_url = some u → u ≠ "" →
          parse_max_bookmark_id u = some c → q.1.get? 1 = some (some c)) ∧
       (((prov cursor).next_url = none ∨ (prov cursor).next_url = some "") →
          q.1.get? 1 = some cursor))) := by
  have hcont : ∀ (c2 : Option String) (db2 : SyncDB) (n2 : Nat) (q : List (Option String) × SyncDB × Nat),
      (bookmark_pull prov cfg fuel c2 db2 n2).map
        (fun qq => (cursor :: qq.1, qq.2)) = some q →
      q.1.get? 1 = some c2 := by
    intro c2 db2 n2 q h
    obtain ⟨qq, hqq, rfl⟩ := Option.map_eq_some'.mp h
    have hhead := bookmark_pull_head prov cfg fuel c2 db2 n2 qq hqq
    simpa [List.get?_cons_succ, ← List.get?_zero] using hhead
  have hcont_len : ∀ (c2 : Option String) (db2 : SyncDB) (n2 : Nat),
      ¬ ((bookmark_pull prov cfg fuel c2 db2 n2).map
          (fun qq => (cursor :: qq.1, qq.2))).map (fun q => q.1.length) = some 1 := by
    intro c2 db2 n2 h
    rw [Option.map_map] at h
    obtain ⟨qq, hqq, hlen⟩ := Option.map_eq_some'.mp h
    have hhead := bookmark_pull_head prov cfg fuel c2 db2 n2 qq hqq
    have : qq.1 ≠ [] := by
      intro hnil
      rw [hnil] at hhead
      simp at hhead
    have : 0 < qq.1.length := List.length_pos.mpr this
    simp only [Function.comp] at hlen
    simp only [List.length_cons] at hlen
    omega
  by_cases h1 : (prov cursor).illusts.isEmpty = true
  · constructor
    · simp [bookmark_pull, h1]
    · intro q hq hne
      rw [h1] at hne
      cases hne
  · have h1f : (prov cursor).illusts.isEmpty = false := by
      cases hh : (prov cursor).illusts.isEmpty
      · rfl
      · exact absurd hh h1
    by_cases h2 : (store_all cfg db (prov cursor).illusts counter).2 = counter
    · constructor
      · simp [bookmark_pull, h1f, h2]
      · intro q hq hf hne
        exact absurd h2 hne
    · cases hnu : (prov cursor).next_url with
      | none =>
        have hstep : bookmark_pull prov cfg (fuel + 1) cursor db counter =
            (bookmark_pull prov cfg fuel cursor
              (store_all cfg db (prov cursor).illusts counter).1
              (store_all cfg db (prov cursor).illusts counter).2).map
              (fun q => (cursor :: q.1, q.2)) := by
          simp only [bookmark_pull, h1f, Bool.false_eq_true, if_false, if_neg h2, hnu]
        constructor
        · rw [hstep]
          refine iff_of_false (hcont_len _ _ _) ?_
          rintro (ha | hb | ⟨u, hu, _, _⟩)
          · exact h1 ha
          · exact h2 hb
          · cases hu
        · intro q hq hf hne
          rw [hstep] at hq
          refine ⟨fun u c hu => ?_, fun _ => hcont _ _ _ _ hq⟩
          cases hu
      | some u =>
        by_cases hu0 : u = ""
        · subst hu0
          have hstep : bookmark_pull prov cfg (fuel + 1) cursor db counter =
              (bookmark_pull prov cfg fuel cursor
                (store_all cfg db (prov cursor).illusts counter).1
                (store_all cfg db (prov cursor).illusts counter).2).map
                (fun q => (cursor :: q.1, q.2)) := by
            simp only [bookmark_pull, h1f, Bool.false_eq_true, if_false, if_neg h2, hnu,
              if_true]
          constructor
          · rw [hstep]
            refine iff_of_false (hcont_len _ _ _) ?_
            rintro (ha | hb | ⟨u2, hu2, hne2, _⟩)
            · exact h1 ha
            · exact h2 hb
            · obtain rfl : ("" : String) = u2 := by injection hu2
              exact hne2 rfl
          · intro q hq hf hne
            rw [hstep] at hq
            refine ⟨fun u2 c hu2 hne2 => ?_, fun _ => hcont _ _ _ _ hq⟩
            obtain rfl : ("" : String) = u2 := by injection hu2
            exact absurd rfl hne2
        · cases hp : parse_max_bookmark_id u with
          | some c =>
            have hstep : bookmark_pull prov cfg (fuel + 1) cursor db counter =
                (bookmark_pull prov cfg fuel (some c)
                  (store_all cfg db (prov cursor).illusts counter).1
                  (store_all cfg db (prov cursor).illusts counter).2).map
                  (fun q => (cursor :: q.1, q.2)) := by
              simp only [bookmark_pull, h1f, Bool.false_eq_true, if_false, if_neg h2, hnu,
                hu0, hp]
            constructor
            · rw [hstep]
              refine iff_of_false (hcont_len _ _ _) ?_
              rintro (ha | hb | ⟨u2, hu2, _, hp2⟩)
              · exact h1 ha
              · exact h2 hb
              · obtain rfl : u = u2 := by injection hu2
                rw [hp] at hp2
                cases hp2
            · intro q hq hf hne
              rw [hstep] at hq
              refine ⟨fun u2 c2 hu2 hne2 hp2 => ?_, fun hc => ?_⟩
              · obtain rfl : u = u2 := by injection hu2
                rw [hp] at hp2
                obtain rfl : c = c2 := by injection hp2
                exact hcont _ _ _ _ hq
              · rcases hc with hc | hc
                · cases hc
                · obtain rfl : u = "" := by injection hc
                  exact absurd rfl hu0
          | none =>
            have hstep : bookmark_pull prov cfg (fuel + 1) cursor db counter =
                some ([cursor],
                  (store_all cfg db (prov cursor).illusts counter).1,
                  (store_all cfg db (prov cursor).illusts counter).2) := by
              simp only [bookmark_pull, h1f, Bool.false_eq_true, if_false, if_neg h2, hnu,
                hu0, hp]
            constructor
            · rw [hstep]
              refine iff_of_true (by simp) (Or.inr (Or.inr ⟨u, rfl, hu0, hp⟩))
            · intro q hq hf hne
              refine ⟨fun u2 c2 hu2 hne2 hp2 => ?_, fun hc => ?_⟩
              · obtain rfl : u = u2 := by injection hu2
                rw [hp] at hp2
                cases hp2
              · rcases hc with hc | hc
                · cases hc
                · obtain rfl : u = "" := by injection hc
                  exact absurd rfl hu0

/-- An empty store fixture. -/
def db_empty : SyncDB := { illusts := [], users := [] }

/-- A provider whose single bookmark page holds one fresh item and no
next-page link. -/
def bm_prov_null : Option String → BookmarkPage :=
  fun _ => { illusts := [raw_item5], next_url := none }

/-- A provider whose first page holds one fresh item and a parseable
next-page link, and whose second page is empty. -/
def bm_prov_step : Option String → BookmarkPage :=
  fun cursor =>
    match cursor with
    | none => { illusts := [raw_item5], next_url := some "b?max_bookmark_id=42" }
    | some _ => { illusts := [], next_url := none }

/-- C1 counterexample: the provider returns a non-empty page of fresh ids
with `next_url` null.  The claim says pagination stops there (one request
in total); the code instead issues a second request with the unchanged
cursor and stops only through the zero-new-ids rule. -/
theorem bookmark_pull_continues_after_null_next_url :
    (bm_prov_null none).next_url = none ∧
    (bookmark_pull bm_prov_null cfg_empty 5 none db_empty 0).map (fun q => q.1) =
      some [none, none] ∧
    ([none, none] : List (Option String)).length ≠ 1 := by
  refine ⟨rfl, by decide, by decide⟩

/-- Witness for C1 at a concrete run: the first page discovers one new id
and links to cursor `42`; the second request uses exactly that cursor. -/
theorem bookmark_pagination_spec_witness :
    (bm_prov_step none).illusts.isEmpty = false ∧
    (store_all cfg_empty db_empty (bm_prov_step none).illusts 0).2 ≠ 0 ∧
    (bm_prov_step none).next_url = some "b?max_bookmark_id=42" ∧
    parse_max_bookmark_id "b?max_bookmark_id=42" = some "42" ∧
    (∃ q, bookmark_pull bm_prov_step cfg_empty 2 none db_empty 0 = some q ∧
      q.1.get? 1 = some (some "42")) := by
  refine ⟨by decide, by decide, rfl, by decide, ?_⟩
  have hs : (bookmark_pull bm_prov_step cfg_empty 2 none db_empty 0).isSome = true := by
    decide
  obtain ⟨q, hq⟩ := Option.isSome_iff_exists.mp hs
  refine ⟨q, hq, ?_⟩
  exact ((bookmark_pagination_spec bm_prov_step cfg_empty 1 none db_empty 0).2 q hq
    (by decide) (by decide)).1 "b?max_bookmark_id=42" "42" rfl (by decide) (by decide)

/-! ## Claim C4: backup rotation -/

/-- C4 (divergence evidence).  Four consecutive saves on an existing store
file `db` with `max_backup = 3` and strictly increasing timestamp suffixes
`1 < 2 < 3 < 4` leave exactly ONE backup (`db-4`), not three: the cleanup
slice `backup_list[:len(backup_list) - max_backup]` has a negative stop
whenever fewer than `max_backup` backups exist, and a negative Python stop
counts from the end, deleting `max(0, 2*len - max_backup)` oldest backups.
The run never accumulates more than one backup. -/
theorem save_rotation_negative_slice_eval :
    save_runs ["db"] "db" ["1", "2", "3", "4"] 3 = ["db", "db-4"] ∧
    (save_runs ["db"] "db" ["1", "2", "3", "4"] 3).filter
      (fun e => is_backup_name "db" e) = ["db-4"] ∧
    ((save_runs ["db"] "db" ["1", "2", "3", "4"] 3).filter
      (fun e => is_backup_name "db" e)).length ≠ 3 := by
  refine ⟨by decide, by decide, by decide⟩

/-! ## Claim C6: failed downloads leave no mark -/

/-- C6 (amended).  When a download job fails, the store is completely
unchanged — in particular the job's `fetched` flag is still false — and,
provided the best-effort delete of the destination file does not itself
fail, no file exists at the destination path afterward; since the store is
unchanged, a subsequent run of the job-building step produces the same job
list, so the failed job is included again. -/
theorem f_download_failure_spec (env : IOEnv) (db : SyncDB) (fs : FS)
    (job : FetchImageJob) (hfail : env.dl job ≠ DlResult.ok)
    (hnd : fs.files.Nodup) :
    (f_download env (db, fs) job).1 = db ∧
    (env.removeFails job.file_path = false →
      job.file_path ∉ (f_download env (db, fs) job).2.files) ∧
    (∀ dir jobs, fetch_image_jobs db dir = some jobs → job ∈ jobs →
      ∃ jobs2, fetch_image_jobs (f_download env (db, fs) job).1 dir = some jobs2 ∧
        job ∈ jobs2) := by
  have hmain : (f_download env (db, fs) job).1 = db ∧
      (env.removeFails job.file_path = false →
        job.file_path ∉ (f_download env (db, fs) job).2.files) := by
    cases hdl : env.dl job with
    | ok => exact absurd hdl hfail
    | failPartial =>
      refine ⟨by simp [f_download, hdl], fun hrm => ?_⟩
      simp only [f_download, hdl, os_remove_best_effort, hrm, Bool.false_eq_true,
        if_false]
      have : (fs.files.insert job.file_path).Nodup := hnd.insert
      intro hmem
      exact ((List.Nodup.mem_erase_iff this).mp hmem).1 rfl
    | failClean =>
      refine ⟨by simp [f_download, hdl], fun hrm => ?_⟩
      simp only [f_download, hdl, os_remove_best_effort, hrm, Bool.false_eq_true,
        if_false]
      intro hmem
      exact ((List.Nodup.mem_erase_iff hnd).mp hmem).1 rfl
  refine ⟨hmain.1, hmain.2, fun dir jobs hjobs hmem => ?_⟩
  rw [hmain.1]
  exact ⟨jobs, hjobs, hmem⟩

/-- An environment in which every download fails leaving a partial file
and every `os.remove` raises. -/
def env_fail_all : IOEnv :=
  { dl := fun _ => DlResult.failPartial
    removeFails := fun _ => true
    rmtreeFails := fun _ => true }

/-- An environment in which every download fails leaving a partial file
and the cleanup calls succeed. -/
def env_fail_dl : IOEnv :=
  { dl := fun _ => DlResult.failPartial
    removeFails := fun _ => false
    rmtreeFails := fun _ => false }

/-- The download job for the single image of `raw_item5` stored under
author directory `dl/a`. -/
def job_item5 : FetchImageJob :=
  { file_path := "dl/a/x.jpg", image_url := "u/x.jpg", illust_id := "5", image_id := 0 }

/-- C6 counterexample: the download fails leaving a partial file and the
best-effort `os.remove` also fails (it is wrapped in `except: pass`), so a
file DOES exist at the destination path after the handler returns, against
the claim's unconditional reading. -/
theorem f_download_leaves_file_when_remove_fails :
    env_fail_all.dl job_item5 ≠ DlResult.ok ∧
    job_item5.file_path ∈
      (f_download env_fail_all (db_empty, { files := [], dirs := [] }) job_item5).2.files := by
  refine ⟨by decide, by decide⟩

/-- Witness for C6 at a concrete failing download with a succeeding
cleanup: the store is unchanged and the destination file is absent. -/
theorem f_download_failure_spec_witness :
    env_fail_dl.dl job_item5 ≠ DlResult.ok ∧
    ([] : List String).Nodup ∧
    ((f_download env_fail_dl (db_empty, { files := [], dirs := [] }) job_item5).1 =
        db_empty ∧
      (env_fail_dl.removeFails job_item5.file_path = false →
        job_item5.file_path ∉
          (f_download env_fail_dl (db_empty, { files := [], dirs := [] }) job_item5).2.files) ∧
      (∀ dir jobs, fetch_image_jobs db_empty dir = some jobs → job_item5 ∈ jobs →
        ∃ jobs2, fetch_image_jobs
            (f_download env_fail_dl (db_empty, { files := [], dirs := [] }) job_item5).1 dir =
            some jobs2 ∧ job_item5 ∈ jobs2)) := by
  refine ⟨by decide, by decide, ?_⟩
  exact f_download_failure_spec env_fail_dl db_empty { files := [], dirs := [] }
    job_item5 (by decide) (by decide)

/-! ## Claim C10: absent ids are skipped silently by removal -/

theorem set_illust_fetched_eq (db : SyncDB) (y : String) (i : Nat) (b : Bool)
    (r : Rec) (imgs : List Image) (img : Image)
    (hr : dict_get db.illusts y = some r)
    (hv : dict_get r "images" = some (Val.vimages imgs))
    (hi : imgs.get? i = some img) :
    set_illust_fetched db y i b =
      some { illusts := dict_set db.illusts y
               (dict_set r "images"
                 (Val.vimages (imgs.set i { img with fetched := some b }))),
             users := db.users } := by
  have hi2 : imgs[i]? = some img := by
    rw [← List.get?_eq_getElem?]
    exact hi
  simp [set_illust_fetched, hr, hv, hi, hi2]

theorem set_illust_fetched_preserves_ne (db : SyncDB) (y : String) (i : Nat)
    (b : Bool) (db2 : SyncDB) (h : set_illust_fetched db y i b = some db2)
    (x : String) (hx : x ≠ y) :
    dict_get db2.illusts x = dict_get db.illusts x ∧ db2.users = db.users := by
  cases hr : dict_get db.illusts y with
  | none => simp [set_illust_fetched, hr] at h
  | some r =>
    cases hv : dict_get r "images" with
    | none => simp [set_illust_fetched, hr, hv] at h
    | some w =>
      cases w with
      | vimages imgs =>
        cases hi : imgs.get? i with
        | none =>
          have hi2 : imgs[i]? = none := by
            rw [← List.get?_eq_getElem?]
            exact hi
          simp [set_illust_fetched, hr, hv, hi, hi2] at h
        | some img =>
          rw [set_illust_fetched_eq db y i b r imgs img hr hv hi] at h
          obtain rfl := Option.some.inj h
          exact ⟨dict_get_dict_set_ne _ _ _ _ (fun hh => hx hh.symm), rfl⟩
      | vbool bb => simp [set_illust_fetched, hr, hv] at h
      | vnat n => simp [set_illust_fetched, hr, hv] at h
      | vstr s => simp [set_illust_fetched, hr, hv] at h
      | vtags ts => simp [set_illust_fetched, hr, hv] at h

theorem remove_image_step_skip (env : IOEnv) (y parent : String)
    (st : SyncDB × FS) (i : Nat) (img : Image)
    (hf : img.fetched.getD false = false) :
    remove_image_step env y parent st i img = some st := by
  simp [remove_image_step, hf]

theorem remove_image_step_keep (env : IOEnv) (y parent : String)
    (st : SyncDB × FS) (i : Nat) (img : Image)
    (hf : img.fetched.getD false = true)
    (hmem : path_join parent (last_segment img.url) ∈ st.2.files)
    (hrm : env.removeFails (path_join parent (last_segment img.url)) = true) :
    remove_image_step env y parent st i img = some st := by
  simp [remove_image_step, hf, hmem, hrm]

theorem remove_image_step_del (env : IOEnv) (y parent : String)
    (st : SyncDB × FS) (i : Nat) (img : Image)
    (hf : img.fetched.getD false = true)
    (hmem : path_join parent (last_segment img.url) ∈ st.2.files)
    (hrm : env.removeFails (path_join parent (last_segment img.url)) = false) :
    remove_image_step env y parent st i img =
      (set_illust_fetched st.1 y i false).map
        (fun db2 => (db2,
          { files := st.2.files.erase (path_join parent (last_segment img.url)),
            dirs := st.2.dirs })) := by
  simp [remove_image_step, hf, hmem, hrm]

theorem remove_image_step_absent (env : IOEnv) (y parent : String)
    (st : SyncDB × FS) (i : Nat) (img : Image)
    (hf : img.fetched.getD false = true)
    (hmem : path_join parent (last_segment img.url) ∉ st.2.files) :
    remove_image_step env y parent st i img =
      (set_illust_fetched st.1 y i false).map (fun db2 => (db2, st.2)) := by
  simp [remove_image_step, hf, hmem]

theorem remove_image_step_preserves_ne (env : IOEnv) (y parent : String)
    (st : SyncDB × FS) (i : Nat) (img : Image) (st2 : SyncDB × FS)
    (h : remove_image_step env y parent st i img = some st2)
    (x : String) (hx : x ≠ y) :
    dict_get st2.1.illusts x = dict_get st.1.illusts x := by
  cases hf : img.fetched.getD false with
  | false =>
    rw [remove_image_step_skip env y parent st i img hf] at h
    obtain rfl := Option.some.inj h
    rfl
  | true =>
    by_cases hmem : path_join parent (last_segment img.url) ∈ st.2.files
    · cases hrm : env.removeFails (path_join parent (last_segment img.url)) with
      | true =>
        rw [remove_image_step_keep env y parent st i img hf hmem hrm] at h
        obtain rfl := Option.some.inj h
        rfl
      | false =>
        rw [remove_image_step_del env y parent st i img hf hmem hrm] at h
        obtain ⟨db2, hdb2, rfl⟩ := Option.map_eq_some'.mp h
        exact (set_illust_fetched_preserves_ne st.1 y i false db2 hdb2 x hx).1
    · rw [remove_image_step_absent env y parent st i img hf hmem] at h
      obtain ⟨db2, hdb2, rfl⟩ := Option.map_eq_some'.mp h
      exact (set_illust_fetched_preserves_ne st.1 y i false db2 hdb2 x hx).1

theorem remove_images_preserves_ne (env : IOEnv) (y parent : String)
    (el : List (Nat × Image)) :
    ∀ (st st2 : SyncDB × FS),
    el.foldlM (fun s p => remove_image_step env y parent s p.1 p.2) st = some st2 →
    ∀ x, x ≠ y → dict_get st2.1.illusts x = dict_get st.1.illusts x := by
  induction el with
  | nil =>
    intro st st2 h x hx
    obtain rfl := Option.some.inj h
    rfl
  | cons hd tl ih =>
    intro st st2 h x hx
    rw [List.foldlM_cons] at h
    cases hstep : remove_image_step env y parent st hd.1 hd.2 with
    | none => rw [hstep] at h; cases h
    | some st1 =>
      rw [hstep] at h
      simp only [Option.bind_eq_bind, Option.some_bind] at h
      rw [ih st1 st2 h x hx]
      exact remove_image_step_preserves_ne env y parent st hd.1 hd.2 st1 hstep x hx

/-- The control shape of `remove_one` on a truthy, well-formed record. -/
theorem remove_one_eq (env : IOEnv) (dir : String) (st : SyncDB × FS)
    (id : String) (illust : Rec) (aname : String) (imgs : List Image)
    (hr : dict_get st.1.illusts id = some illust)
    (hne : illust.isEmpty = false)
    (ha : dict_get illust "author_name" = some (Val.vstr aname))
    (hv : dict_get illust "images" = some (Val.vimages imgs)) :
    remove_one env dir st id =
      (remove_images env id
        (if imgs.length > 1 then path_join (path_join dir aname) id
         else path_join dir aname) imgs st).map
        (fun st3 =>
          (update_illust st3.1 id [("_deleted", Val.vbool true)],
           if imgs.length > 1 ∧
               path_exists st3.2 (path_join (path_join dir aname) id) then
             (if env.rmtreeFails (path_join (path_join dir aname) id) = true then st3.2
              else rmtree st3.2 (path_join (path_join dir aname) id))
           else st3.2)) := by
  by_cases hlen : imgs.length > 1
  · simp only [remove_one, hr, hne, Bool.false_eq_true, if_false, ha, hv, hlen,
      if_true, gt_iff_lt, true_and]
    cases hri : remove_images env id (path_join (path_join dir aname) id) imgs st with
    | none => rfl
    | some st3 => simp [hlen]
  · simp only [remove_one, hr, hne, Bool.false_eq_true, if_false, ha, hv, hlen,
      if_false, gt_iff_lt]
    cases hri : remove_images env id (path_join dir aname) imgs st with
    | none => rfl
    | some st3 => simp [hlen]

theorem remove_one_preserves_absent (env : IOEnv) (dir : String)
    (st st2 : SyncDB × FS) (id2 : String)
    (h : remove_one env dir st id2 = some st2) (x : String)
    (hx : dict_get st.1.illusts x = none) :
    dict_get st2.1.illusts x = none := by
  cases hr : dict_get st.1.illusts id2 with
  | none =>
    rw [show remove_one env dir st id2 = some st from by simp [remove_one, hr]] at h
    obtain rfl := Option.some.inj h
    exact hx
  | some illust =>
    have hxid : x ≠ id2 := by
      intro hh
      subst hh
      rw [hx] at hr
      cases hr
    cases hne : illust.isEmpty with
    | true =>
      rw [show remove_one env dir st id2 = some st from by
        simp [remove_one, hr, hne]] at h
      obtain rfl := Option.some.inj h
      exact hx
    | false =>
      cases ha : dict_get illust "author_name" with
      | none => simp [remove_one, hr, hne, ha] at h
      | some w =>
        cases w with
        | vstr aname =>
          cases hv : dict_get illust "images" with
          | none =>
            -- images key absent: the source uses the default empty list
            rw [show remove_one env dir st id2 =
                some (update_illust st.1 id2 [("_deleted", Val.vbool true)], st.2) from by
              simp [remove_one, hr, hne, ha, hv, remove_images]] at h
            obtain rfl := Option.some.inj h
            simp only [update_illust]
            rw [(update_dict_shallow_merge st.1.illusts id2 _ (by decide)).2.2 x hxid]
            exact hx
          | some w2 =>
            cases w2 with
            | vimages imgs =>
              rw [remove_one_eq env dir st id2 illust aname imgs hr hne ha hv] at h
              obtain ⟨st3, hst3, rfl⟩ := Option.map_eq_some'.mp h
              have h1 := remove_images_preserves_ne env id2 _ imgs.enum st st3 hst3 x hxid
              simp only [update_illust]
              rw [(update_dict_shallow_merge st3.1.illusts id2 _ (by decide)).2.2 x hxid]
              rw [h1]
              exact hx
            | vbool bb => simp [remove_one, hr, hne, ha, hv] at h
            | vnat n => simp [remove_one, hr, hne, ha, hv] at h
            | vstr s => simp [remove_one, hr, hne, ha, hv] at h
            | vtags ts => simp [remove_one, hr, hne, ha, hv] at h
        | vbool bb => simp [remove_one, hr, hne, ha] at h
        | vnat n => simp [remove_one, hr, hne, ha] at h
        | vtags ts => simp [remove_one, hr, hne, ha] at h
        | vimages imgs2 => simp [remove_one, hr, hne, ha] at h

/-! ## Claim C7: removal round-trip -/

/-- The per-image removal loop of `_remove_illust`, characterized against
the state at loop entry: the loop succeeds; directories, users, unrelated
records and unrelated record fields are untouched; and the image at each
processed position keeps `fetched=true` exactly when its file existed and
its deletion failed, and otherwise has `fetched` cleared. -/
theorem remove_images_closed_form (env : IOEnv) (id parent : String) :
    ∀ (el : List (Nat × Image)) (db : SyncDB) (fs : FS) (rec : Rec)
      (imgs : List Image),
    dict_get db.illusts id = some rec →
    dict_get rec "images" = some (Val.vimages imgs) →
    (∀ i img, (i, img) ∈ el → imgs.get? i = some img) →
    (el.map Prod.fst).Nodup →
    (el.map (fun p => path_join parent (last_segment p.2.url))).Nodup →
    ∃ db2 fs2,
      el.foldlM (fun s p => remove_image_step env id parent s p.1 p.2) (db, fs) =
        some (db2, fs2) ∧
      fs2.dirs = fs.dirs ∧
      db2.users = db.users ∧
      (∀ x, x ≠ id → dict_get db2.illusts x = dict_get db.illusts x) ∧
      ∃ rec2 imgs2,
        dict_get db2.illusts id = some rec2 ∧
        (∀ k, k ≠ "images" → dict_get rec2 k = dict_get rec k) ∧
        dict_get rec2 "images" = some (Val.vimages imgs2) ∧
        imgs2.length = imgs.length ∧
        (∀ j, (∀ im, (j, im) ∉ el) → imgs2.get? j = imgs.get? j) ∧
        (∀ i img, (i, img) ∈ el → imgs2.get? i =
          some (if img.fetched.getD false = true then
                  (if path_join parent (last_segment img.url) ∈ fs.files ∧
                      env.removeFails (path_join parent (last_segment img.url)) = true
                   then img
                   else { img with fetched := some false })
                else img)) := by
  intro el
  induction el with
  | nil =>
    intro db fs rec imgs hrec hv himg hidx hpath
    refine ⟨db, fs, rfl, rfl, rfl, fun x hx => rfl, rec, imgs, hrec, fun k hk => rfl,
      hv, rfl, fun j hj => rfl, fun i img hmem => absurd hmem (List.not_mem_nil _)⟩
  | cons hd tl ih =>
    obtain ⟨i, img⟩ := hd
    intro db fs rec imgs hrec hv himg hidx hpath
    have hgeti : imgs.get? i = some img := himg i img (List.mem_cons_self _ _)
    have hlti : i < imgs.length := (List.get?_eq_some.mp hgeti).1
    have hinotin : i ∉ tl.map Prod.fst := by
      have := hidx
      simp only [List.map_cons, List.nodup_cons] at this
      exact this.1
    have hidx2 : (tl.map Prod.fst).Nodup := by
      have := hidx
      simp only [List.map_cons, List.nodup_cons] at this
      exact this.2
    have hpnotin : path_join parent (last_segment img.url) ∉
        tl.map (fun p => path_join parent (last_segment p.2.url)) := by
      have := hpath
      simp only [List.map_cons, List.nodup_cons] at this
      exact this.1
    have hpath2 : (tl.map (fun p => path_join parent (last_segment p.2.url))).Nodup := by
      have := hpath
      simp only [List.map_cons, List.nodup_cons] at this
      exact this.2
    have hnotin_tl : ∀ im, (i, im) ∉ tl := by
      intro im hmem
      exact hinotin (List.mem_map_of_mem Prod.fst hmem)
    cases hf : img.fetched.getD false with
    | false =>
      obtain ⟨db2, fs2, hfold, hdirs, husers, hother, rec2, imgs2, hrec2, hkeys,
        hv2, hlen, huntouched, hformula⟩ :=
        ih db fs rec imgs hrec hv
          (fun j imj hmem => himg j imj (List.mem_cons_of_mem _ hmem)) hidx2 hpath2
      refine ⟨db2, fs2, ?_, hdirs, husers, hother, rec2, imgs2, hrec2, hkeys, hv2,
        hlen, ?_, ?_⟩
      · rw [List.foldlM_cons, remove_image_step_skip env id parent (db, fs) i img hf]
        simpa using hfold
      · intro j hj
        exact huntouched j (fun im hmem => hj im (List.mem_cons_of_mem _ hmem))
      · intro j imj hmem
        rcases List.mem_cons.mp hmem with heq | hmem2
        · have hj_eq : j = i := congrArg Prod.fst heq
          have him_eq : imj = img := congrArg Prod.snd heq
          rw [hj_eq, him_eq]
          rw [huntouched i hnotin_tl, hgeti, hf]
          simp
        · exact hformula j imj hmem2
    | true =>
      by_cases hmem0 : path_join parent (last_segment img.url) ∈ fs.files
      · cases hrm : env.removeFails (path_join parent (last_segment img.url)) with
        | true =>
          obtain ⟨db2, fs2, hfold, hdirs, husers, hother, rec2, imgs2, hrec2, hkeys,
            hv2, hlen, huntouched, hformula⟩ :=
            ih db fs rec imgs hrec hv
              (fun j imj hmem => himg j imj (List.mem_cons_of_mem _ hmem)) hidx2 hpath2
          refine ⟨db2, fs2, ?_, hdirs, husers, hother, rec2, imgs2, hrec2, hkeys, hv2,
            hlen, ?_, ?_⟩
          · rw [List.foldlM_cons,
              remove_image_step_keep env id parent (db, fs) i img hf hmem0 hrm]
            simpa using hfold
          · intro j hj
            exact huntouched j (fun im hmem => hj im (List.mem_cons_of_mem _ hmem))
          · intro j imj hmem
            rcases List.mem_cons.mp hmem with heq | hmem2
            · have hj_eq : j = i := congrArg Prod.fst heq
              have him_eq : imj = img := congrArg Prod.snd heq
              rw [hj_eq, him_eq]
              rw [huntouched i hnotin_tl, hgeti, hf]
              simp [hmem0, hrm]
            · exact hformula j imj hmem2
        | false =>
          have hstep := remove_image_step_del env id parent (db, fs) i img hf hmem0 hrm
          rw [set_illust_fetched_eq db id i false rec imgs img hrec hv hgeti] at hstep
          simp only [Option.map_some] at hstep
          obtain ⟨db2, fs2, hfold, hdirs, husers, hother, rec2, imgs2, hrec2, hkeys,
            hv2, hlen, huntouched, hformula⟩ :=
            ih { illusts := dict_set db.illusts id
                   (dict_set rec "images"
                     (Val.vimages (imgs.set i { img with fetched := some false }))),
                 users := db.users }
              { files := fs.files.erase (path_join parent (last_segment img.url)),
                dirs := fs.dirs }
              (dict_set rec "images"
                (Val.vimages (imgs.set i { img with fetched := some false })))
              (imgs.set i { img with fetched := some false })
              (dict_get_dict_set_self _ _ _) (dict_get_dict_set_self _ _ _)
              (by
                intro j imj hmem
                have hji : j ≠ i := fun hh => hnotin_tl imj (hh ▸ hmem)
                rw [List.get?_set_of_lt' _ imgs hlti]
                rw [if_neg (fun hh : i = j => hji hh.symm)]
                exact himg j imj (List.mem_cons_of_mem _ hmem))
              hidx2 hpath2
          refine ⟨db2, fs2, ?_, ?_, husers, ?_, rec2, imgs2, hrec2, ?_, hv2, ?_,
              ?_, ?_⟩
          · rw [List.foldlM_cons, hstep]
            simpa using hfold
          · exact hdirs
          · intro x hx
            rw [hother x hx]
            exact dict_get_dict_set_ne _ _ _ _ (fun hh => hx hh.symm)
          · intro k hk
            rw [hkeys k hk]
            exact dict_get_dict_set_ne _ _ _ _ (fun hh => hk hh.symm)
          · rw [hlen, List.length_set]
          · intro j hj
            rw [huntouched j (fun im hmem => hj im (List.mem_cons_of_mem _ hmem))]
            rw [List.get?_set_of_lt' _ imgs hlti]
            have hji : ¬ i = j := fun hh => hj img (by rw [← hh]; exact List.mem_cons_self _ _)
            simp [hji]
          · intro j imj hmem
            rcases List.mem_cons.mp hmem with heq | hmem2
            · have hj_eq : j = i := congrArg Prod.fst heq
              have him_eq : imj = img := congrArg Prod.snd heq
              rw [hj_eq, him_eq, huntouched i hnotin_tl]
              rw [List.get?_set_of_lt' _ imgs hlti]
              simp [hf, hmem0, hrm]
            · rw [hformula j imj hmem2]
              have hpne : path_join parent (last_segment imj.url) ≠
                  path_join parent (last_segment img.url) := by
                intro hh
                exact hpnotin (hh ▸ List.mem_map_of_mem _ hmem2)
              refine congrArg some (if_congr Iff.rfl (if_congr ?_ rfl rfl) rfl)
              rw [List.mem_erase_of_ne hpne]
      · have hstep := remove_image_step_absent env id parent (db, fs) i img hf hmem0
        rw [set_illust_fetched_eq db id i false rec imgs img hrec hv hgeti] at hstep
        simp only [Option.map_some] at hstep
        obtain ⟨db2, fs2, hfold, hdirs, husers, hother, rec2, imgs2, hrec2, hkeys,
          hv2, hlen, huntouched, hformula⟩ :=
          ih { illusts := dict_set db.illusts id
                 (dict_set rec "images"
                   (Val.vimages (imgs.set i { img with fetched := some false }))),
               users := db.users }
            fs
            (dict_set rec "images"
              (Val.vimages (imgs.set i { img with fetched := some false })))
            (imgs.set i { img with fetched := some false })
            (dict_get_dict_set_self _ _ _) (dict_get_dict_set_self _ _ _)
            (by
              intro j imj hmem
              have hji : j ≠ i := fun hh => hnotin_tl imj (hh ▸ hmem)
              rw [List.get?_set_of_lt' _ imgs hlti]
              rw [if_neg (fun hh : i = j => hji hh.symm)]
              exact himg j imj (List.mem_cons_of_mem _ hmem))
            hidx2 hpath2
        refine ⟨db2, fs2, ?_, hdirs, husers, ?_, rec2, imgs2, hrec2, ?_, hv2, ?_,
            ?_, ?_⟩
        · rw [List.foldlM_cons, hstep]
          simpa using hfold
        · intro x hx
          rw [hother x hx]
          exact dict_get_dict_set_ne _ _ _ _ (fun hh => hx hh.symm)
        · intro k hk
          rw [hkeys k hk]
          exact dict_get_dict_set_ne _ _ _ _ (fun hh => hk hh.symm)
        · rw [hlen, List.length_set]
        · intro j hj
          rw [huntouched j (fun im hmem => hj im (List.mem_cons_of_mem _ hmem))]
          rw [List.get?_set_of_lt' _ imgs hlti]
          have hji : ¬ i = j := fun hh => hj img (by rw [← hh]; exact List.mem_cons_self _ _)
          simp [hji]
        · intro j imj hmem
          rcases List.mem_cons.mp hmem with heq | hmem2
          · have hj_eq : j = i := congrArg Prod.fst heq
            have him_eq : imj = img := congrArg Prod.snd heq
            rw [hj_eq, him_eq]
            rw [huntouched i hnotin_tl]
            rw [List.get?_set_of_lt' _ imgs hlti]
            simp [hf, hmem0]
          · exact hformula j imj hmem2

/-- The directory holding an illust's files, as computed by the source: a
dedicated per-illust subdirectory when there is more than one image. -/
def illust_parent_dir (dir aname id : String) (n : Nat) : String :=
  if n > 1 then path_join (path_join dir aname) id else path_join dir aname

theorem remove_images_all_skip (env : IOEnv) (id parent : String)
    (el : List (Nat × Image)) :
    ∀ (st : SyncDB × FS),
    (∀ i img, (i, img) ∈ el → img.fetched.getD false = false) →
    el.foldlM (fun s p => remove_image_step env id parent s p.1 p.2) st = some st := by
  induction el with
  | nil => intro st h; rfl
  | cons hd tl ih =>
    intro st h
    rw [List.foldlM_cons,
      remove_image_step_skip env id parent st hd.1 hd.2
        (h hd.1 hd.2 (by rw [show (hd.1, hd.2) = hd from rfl]; exact List.mem_cons_self _ _))]
    simpa using ih st (fun i img hmem => h i img (List.mem_cons_of_mem _ hmem))

/-- C7 (amended to best-effort tree removal).  Removing a present,
well-formed illust record: (1) always succeeds and re-asserts
`_deleted=true`; (2) for each image position, the `fetched` flag afterward
is true exactly when it was true before AND the image's file existed AND
its deletion failed — i.e. a successfully deleted or already absent file
clears the flag, a failed deletion keeps it; (3) in the multi-image case
the dedicated subdirectory is gone afterward provided the `rmtree` call
does not itself fail; and (4) removing an already-removed illust
(`_deleted=true`, no fetched flags set, subdirectory gone) changes nothing
at all: it returns the store and filesystem unchanged. -/
theorem remove_one_spec (env : IOEnv) (dir : String) (db : SyncDB) (fs : FS)
    (id : String) (rec : Rec) (aname : String) (imgs : List Image)
    (hr : dict_get db.illusts id = some rec)
    (hne : rec.isEmpty = false)
    (ha : dict_get rec "author_name" = some (Val.vstr aname))
    (hv : dict_get rec "images" = some (Val.vimages imgs))
    (hpaths : (imgs.map (fun img =>
      path_join (illust_parent_dir dir aname id imgs.length)
        (last_segment img.url))).Nodup)
    (hdirs_nd : fs.dirs.Nodup) :
    (∃ db2 fs2, remove_one env dir (db, fs) id = some (db2, fs2) ∧
      (∃ rec2 imgs2, dict_get db2.illusts id = some rec2 ∧
        dict_get rec2 "_deleted" = some (Val.vbool true) ∧
        dict_get rec2 "images" = some (Val.vimages imgs2) ∧
        imgs2.length = imgs.length ∧
        (∀ i img, imgs.get? i = some img →
          imgs2.get? i = some (if img.fetched.getD false = true then
              (if path_join (illust_parent_dir dir aname id imgs.length)
                    (last_segment img.url) ∈ fs.files ∧
                  env.removeFails (path_join (illust_parent_dir dir aname id imgs.length)
                    (last_segment img.url)) = true
               then img
               else { img with fetched := some false })
            else img))) ∧
      (imgs.length > 1 →
        env.rmtreeFails (illust_parent_dir dir aname id imgs.length) = false →
        illust_parent_dir dir aname id imgs.length ∉ fs2.dirs)) ∧
    (dict_get rec "_deleted" = some (Val.vbool true) →
     (∀ img, img ∈ imgs → img.fetched.getD false = false) →
     (imgs.length > 1 → ¬ path_exists fs (illust_parent_dir dir aname id imgs.length)) →
     remove_one env dir (db, fs) id = some (db, fs)) := by
  have hparent : (if imgs.length > 1 then path_join (path_join dir aname) id
      else path_join dir aname) = illust_parent_dir dir aname id imgs.length := rfl
  have heq := remove_one_eq env dir (db, fs) id rec aname imgs hr hne ha hv
  rw [hparent] at heq
  constructor
  · -- the full removal pass
    have himg : ∀ i img, (i, img) ∈ imgs.enum → imgs.get? i = some img := by
      intro i img hmem
      rw [List.get?_eq_getElem?]
      exact List.mk_mem_enum_iff_getElem?.mp hmem
    have hidx : (imgs.enum.map Prod.fst).Nodup := by
      rw [List.enum_map_fst]
      exact List.nodup_range _
    have hpath2 : (imgs.enum.map (fun p =>
        path_join (illust_parent_dir dir aname id imgs.length)
          (last_segment p.2.url))).Nodup := by
      have : imgs.enum.map (fun p =>
          path_join (illust_parent_dir dir aname id imgs.length)
            (last_segment p.2.url)) =
          imgs.map (fun img => path_join (illust_parent_dir dir aname id imgs.length)
            (last_segment img.url)) := by
        rw [show (fun p : Nat × Image =>
            path_join (illust_parent_dir dir aname id imgs.length)
              (last_segment p.2.url)) =
          (fun img : Image => path_join (illust_parent_dir dir aname id imgs.length)
              (last_segment img.url)) ∘ Prod.snd from rfl]
        rw [← List.map_map, List.enum_map_snd]
      rw [this]
      exact hpaths
    obtain ⟨db2, fs2, hfold, hdirs, husers, hother, rec2, imgs2, hrec2, hkeys, hv2,
      hlen, huntouched, hformula⟩ :=
      remove_images_closed_form env id (illust_parent_dir dir aname id imgs.length)
        imgs.enum db fs rec imgs hr hv himg hidx hpath2
    have hri : remove_images env id (illust_parent_dir dir aname id imgs.length)
        imgs (db, fs) = some (db2, fs2) := hfold
    rw [heq, hri]
    refine ⟨_, _, rfl, ?_, ?_⟩
    · have hupd := (update_dict_shallow_merge db2.illusts id
        [("_deleted", Val.vbool true)] (by decide)).2.1 rec2 hrec2
      obtain ⟨rec3, hrec3, hrec3get⟩ := hupd
      refine ⟨rec3, imgs2, hrec3, ?_, ?_, hlen, ?_⟩
      · rw [hrec3get "_deleted"]
        rfl
      · rw [hrec3get "images"]
        simpa using hv2
      · intro i img hget
        exact hformula i img (List.mk_mem_enum_iff_getElem?.mpr
          (by rw [← List.get?_eq_getElem?]; exact hget))
    · intro hmulti hrmtree
      have hpm : illust_parent_dir dir aname id imgs.length =
          path_join (path_join dir aname) id := by
        unfold illust_parent_dir
        rw [if_pos hmulti]
      rw [hpm] at hrmtree ⊢
      by_cases hex : path_exists fs2 (path_join (path_join dir aname) id)
      · rw [if_pos ⟨hmulti, hex⟩, hrmtree, if_neg Bool.false_ne_true]
        intro hmem
        have hnd2 : fs2.dirs.Nodup := by
          rw [hdirs]
          exact hdirs_nd
        have hndf : (fs2.dirs.filter (fun d =>
            !(str_startswith d (path_join (path_join dir aname) id ++ "/")))).Nodup :=
          List.Nodup.filter _ hnd2
        exact ((List.Nodup.mem_erase_iff hndf).mp hmem).1 rfl
      · rw [if_neg (fun hh => hex hh.2)]
        intro hmem
        exact hex (Or.inr hmem)
  · -- idempotence on an already-removed record
    intro hdel hunf hnodir
    have hskip := remove_images_all_skip env id
      (illust_parent_dir dir aname id imgs.length) imgs.enum (db, fs)
      (fun i img hmem => hunf img (by
        have := List.enum_map_snd imgs
        rw [← this]
        exact List.mem_map_of_mem Prod.snd hmem))
    have hri : remove_images env id (illust_parent_dir dir aname id imgs.length)
        imgs (db, fs) = some (db, fs) := hskip
    have hcond : ¬ (imgs.length > 1 ∧
        path_exists fs (path_join (path_join dir aname) id)) := by
      rintro ⟨hm, hex⟩
      refine hnodir hm ?_
      have hpm : illust_parent_dir dir aname id imgs.length =
          path_join (path_join dir aname) id := by
        unfold illust_parent_dir
        rw [if_pos hm]
      rw [hpm]
      exact hex
    have hrec_upd : dict_update rec [("_deleted", Val.vbool true)] = rec := by
      show dict_set rec "_deleted" (Val.vbool true) = rec
      exact dict_set_eq_self rec "_deleted" (Val.vbool true) hdel
    have h1 : update_dict_coll db.illusts id [("_deleted", Val.vbool true)] =
        db.illusts := by
      simp only [update_dict_coll, hr]
      rw [hrec_upd, dict_set_eq_self db.illusts id rec hr]
    have hilde : update_illust db id [("_deleted", Val.vbool true)] = db := by
      simp only [update_illust, h1]
    rw [heq, hri, Option.map_some', if_neg hcond, hilde]

/-- A well-formed removable record: two fetched images by author `a`. -/
def rec_rm : Rec :=
  [("author_name", Val.vstr "a"),
   ("images", Val.vimages
     [{ url := "u/p1.png", fetched := some true },
      { url := "u/p2.png", fetched := some true }]),
   ("_deleted", Val.vbool false)]

/-- A store holding only the removable record under id `7`. -/
def db_rm : SyncDB := { illusts := [("7", rec_rm)], users := [] }

/-- The matching filesystem: both image files inside the per-illust
subdirectory `dl/a/7`. -/
def fs_rm : FS := { files := ["dl/a/7/p1.png", "dl/a/7/p2.png"], dirs := ["dl/a/7"] }

/-- An environment in which every I/O call succeeds. -/
def env_ok_rm : IOEnv :=
  { dl := fun _ => DlResult.ok
    removeFails := fun _ => false
    rmtreeFails := fun _ => false }

/-- An environment in which file deletes succeed but `rmtree` raises. -/
def env_rmtree_fail : IOEnv :=
  { dl := fun _ => DlResult.ok
    removeFails := fun _ => false
    rmtreeFails := fun _ => true }

/-- C7 counterexample: removing the two-image illust `7` while
`shutil.rmtree` fails (the failure is caught and only logged) leaves the
dedicated subdirectory `dl/a/7` in place, against the claim's
unconditional "removes the illust's dedicated subdirectory". -/
theorem remove_one_keeps_dir_when_rmtree_fails :
    dict_get db_rm.illusts "7" = some rec_rm ∧
    ((remove_one env_rmtree_fail "dl" (db_rm, fs_rm) "7").map
      (fun st2 => decide ("dl/a/7" ∈ st2.2.dirs))) = some true := by
  refine ⟨by decide, by decide⟩

/-- Witness for C7 at a concrete store: with all I/O succeeding, removal
of illust `7` succeeds and its subdirectory is gone. -/
theorem remove_one_spec_witness :
    dict_get db_rm.illusts "7" = some rec_rm ∧
    rec_rm.isEmpty = false ∧
    dict_get rec_rm "author_name" = some (Val.vstr "a") ∧
    (∃ db2 fs2, remove_one env_ok_rm "dl" (db_rm, fs_rm) "7" = some (db2, fs2) ∧
      "dl/a/7" ∉ fs2.dirs) := by
  refine ⟨by decide, by decide, by decide, ?_⟩
  obtain ⟨⟨db2, fs2, hrun, _hrec, hdir⟩, _⟩ :=
    remove_one_spec env_ok_rm "dl" db_rm fs_rm "7" rec_rm "a"
      [{ url := "u/p1.png", fetched := some true },
       { url := "u/p2.png", fetched := some true }]
      (by decide) (by decide) (by decide) (by decide) (by decide) (by decide)
  exact ⟨db2, fs2, hrun, hdir (by decide) (by decide)⟩

/-- C10.  An id absent from the store's `illusts` mapping is skipped
silently by removal: its own iteration is a no-op on store and filesystem,
and deleting it from the batch does not change the result (no record is
created for it, nothing is touched, the rest of the batch is processed
exactly as before). -/
theorem remove_illust_skips_absent (env : IOEnv) (dir : String) (db : SyncDB)
    (fs : FS) (id : String) (ids1 ids2 : List String)
    (h : dict_get db.illusts id = none) :
    remove_one env dir (db, fs) id = some (db, fs) ∧
    remove_illust env dir (db, fs) (ids1 ++ id :: ids2) =
      remove_illust env dir (db, fs) (ids1 ++ ids2) := by
  have hskip : ∀ (db2 : SyncDB) (fs2 : FS), dict_get db2.illusts id = none →
      remove_one env dir (db2, fs2) id = some (db2, fs2) := by
    intro db2 fs2 h2
    simp [remove_one, h2]
  refine ⟨hskip db fs h, ?_⟩
  induction ids1 generalizing db fs with
  | nil =>
    unfold remove_illust
    rw [List.nil_append, List.nil_append, List.foldlM_cons, hskip db fs h]
    simp only [Option.bind_eq_bind, Option.some_bind]
  | cons a tl ih =>
    unfold remove_illust
    rw [List.cons_append, List.cons_append, List.foldlM_cons, List.foldlM_cons]
    cases ha : remove_one env dir (db, fs) a with
    | none => rfl
    | some st1 =>
      simp only [Option.bind_eq_bind, Option.some_bind]
      have habs : dict_get st1.1.illusts id = none :=
        remove_one_preserves_absent env dir (db, fs) st1 a ha id h
      have := ih st1.1 st1.2 habs
      unfold remove_illust at this
      simpa using this

/-- Witness for C10 at a concrete store: id `9` is absent; its iteration
is a no-op and splicing it out of the batch does not change the result. -/
theorem remove_illust_skips_absent_witness :
    dict_get db_rm.illusts "9" = none ∧
    (remove_one env_ok_rm "dl" (db_rm, fs_rm) "9" = some (db_rm, fs_rm) ∧
     remove_illust env_ok_rm "dl" (db_rm, fs_rm) (["7"] ++ "9" :: []) =
       remove_illust env_ok_rm "dl" (db_rm, fs_rm) (["7"] ++ [])) :=
  ⟨by decide,
   remove_illust_skips_absent env_ok_rm "dl" db_rm fs_rm "9" ["7"] [] (by decide)⟩

/-! ## Claim C9: `set_illust_fetched` targeted mutation -/

/-- C9.  `set_illust_fetched` raises (returns `none`) exactly when the
illust id is not a key of the `illusts` mapping or the index does not
denote an existing image of that illust; when both exist, it replaces
exactly the addressed image's `fetched` flag with the given value, leaving
every other field, image, record and collection unchanged. -/
theorem set_illust_fetched_spec (db : SyncDB) (id : String) (i : Nat) (v : Bool) :
    ((set_illust_fetched db id i v).isSome ↔
      ∃ r imgs, dict_get db.illusts id = some r ∧
        dict_get r "images" = some (Val.vimages imgs) ∧ i < imgs.length) ∧
    (∀ r imgs img, dict_get db.illusts id = some r →
      dict_get r "images" = some (Val.vimages imgs) →
      imgs.get? i = some img →
      ∃ db2, set_illust_fetched db id i v = some db2 ∧
        db2.users = db.users ∧
        (∀ id2, id2 ≠ id → dict_get db2.illusts id2 = dict_get db.illusts id2) ∧
        ∃ r2, dict_get db2.illusts id = some r2 ∧
          (∀ k, k ≠ "images" → dict_get r2 k = dict_get r k) ∧
          dict_get r2 "images" =
            some (Val.vimages (imgs.set i { img with fetched := some v }))) := by
  constructor
  · cases hr : dict_get db.illusts id with
    | none => simp [set_illust_fetched, hr]
    | some r =>
      cases hv : dict_get r "images" with
      | none => simp [set_illust_fetched, hr, hv]
      | some w =>
        cases w with
        | vimages imgs =>
          cases hi : imgs.get? i with
          | none =>
            have hlen : imgs.length ≤ i := List.get?_eq_none.mp hi
            simp only [set_illust_fetched, hr, hv, hi]
            refine iff_of_false (by simp) ?_
            rintro ⟨r2, imgs2, hr2, hv2, hlen2⟩
            obtain rfl : r = r2 := by injection hr2
            rw [hv] at hv2
            obtain rfl : imgs = imgs2 := by
              injection hv2 with h
              injection h
            omega
          | some img =>
            simp only [set_illust_fetched, hr, hv, hi]
            refine iff_of_true (by simp) ?_
            exact ⟨r, imgs, rfl, hv, (List.get?_eq_some.mp hi).1⟩
        | vbool b => simp [set_illust_fetched, hr, hv]
        | vnat n => simp [set_illust_fetched, hr, hv]
        | vstr s => simp [set_illust_fetched, hr, hv]
        | vtags ts => simp [set_illust_fetched, hr, hv]
  · intro r imgs img hr hv hi
    have hi2 : imgs[i]? = some img := by
      rw [← List.get?_eq_getElem?]
      exact hi
    have hset : set_illust_fetched db id i v =
        some { illusts := dict_set db.illusts id
                 (dict_set r "images"
                   (Val.vimages (imgs.set i { img with fetched := some v }))),
               users := db.users } := by
      simp [set_illust_fetched, hr, hv, hi, hi2]
    refine ⟨_, hset, rfl, fun id2 hne => ?_, ?_⟩
    · exact dict_get_dict_set_ne _ _ _ _ (fun h => hne h.symm)
    · refine ⟨_, dict_get_dict_set_self _ _ _, fun k hk => ?_, ?_⟩
      · exact dict_get_dict_set_ne _ _ _ _ (fun h => hk h.symm)
      · exact dict_get_dict_set_self _ _ _

/-- Witness for C9 at a concrete store: setting image 1 of illust `7`. -/
theorem set_illust_fetched_spec_witness :
    (dict_get ([("7", [("images", Val.vimages
        [{ url := "u/a.png", fetched := none },
         { url := "u/b.png", fetched := none }])])] : List (String × Rec)) "7" =
      some [("images", Val.vimages
        [{ url := "u/a.png", fetched := none },
         { url := "u/b.png", fetched := none }])]) ∧
    (∃ db2, set_illust_fetched
        { illusts := [("7", [("images", Val.vimages
            [{ url := "u/a.png", fetched := none },
             { url := "u/b.png", fetched := none }])])], users := [] } "7" 1 true = some db2 ∧
      db2.users = [] ∧
      (∀ id2, id2 ≠ "7" → dict_get db2.illusts id2 =
        dict_get ([("7", [("images", Val.vimages
          [{ url := "u/a.png", fetched := none },
           { url := "u/b.png", fetched := none }])])] : List (String × Rec)) id2) ∧
      ∃ r2, dict_get db2.illusts "7" = some r2 ∧
        (∀ k, k ≠ "images" → dict_get r2 k =
          dict_get ([("images", Val.vimages
            [{ url := "u/a.png", fetched := none },
             { url := "u/b.png", fetched := none }])] : Rec) k) ∧
        dict_get r2 "images" = some (Val.vimages
          ([{ url := "u/a.png", fetched := none },
             { url := "u/b.png", fetched := none }].set 1
            { url := "u/b.png", fetched := some true }))) := by
  refine ⟨by decide, ?_⟩
  exact (set_illust_fetched_spec
    { illusts := [("7", [("images", Val.vimages
        [{ url := "u/a.png", fetched := none },
         { url := "u/b.png", fetched := none }])])], users := [] } "7" 1 true).2
    _ _ { url := "u/b.png", fetched := none } rfl rfl rfl

/-! ## Claim C5: the job-building step of `fetch_images` -/

theorem mem_iff_dict_get_of_nodup (d : List (String × α))
    (hnd : (dict_keys d).Nodup) (k : String) (v : α) :
    (k, v) ∈ d ↔ dict_get d k = some v := by
  induction d with
  | nil => simp
  | cons hd tl ih =>
    obtain ⟨k1, v1⟩ := hd
    obtain ⟨hk1, htl⟩ := dict_keys_nodup_tail k1 v1 tl hnd
    by_cases h1 : k1 = k
    · subst h1
      simp only [List.mem_cons, dict_get_cons, if_pos rfl]
      constructor
      · rintro (heq | hmem)
        · obtain rfl : v = v1 := congrArg Prod.snd heq
          rfl
        · exact absurd (List.mem_map_of_mem Prod.fst hmem) hk1
      · intro heq
        obtain rfl : v1 = v := by injection heq
        exact Or.inl rfl
    · simp only [List.mem_cons, dict_get_cons, if_neg h1]
      rw [← ih htl]
      constructor
      · rintro (heq | hmem)
        · exact absurd (congrArg Prod.fst heq).symm h1
        · exact hmem
      · exact Or.inr

/-- Membership in the jobs emitted for one record. -/
theorem illust_jobs_mem (dirp id : String) (rec : Rec) (l : List FetchImageJob)
    (h : illust_jobs dirp id rec = some l) (job : FetchImageJob) :
    job ∈ l ↔
      (Val.truthy ((dict_get rec "_deleted").getD (Val.vbool false)) = false ∧
       ∃ aname imgs img,
         dict_get rec "author_name" = some (Val.vstr aname) ∧
         dict_get rec "images" = some (Val.vimages imgs) ∧
         imgs.get? job.image_id = some img ∧
         img.fetched.getD false = false ∧
         job.illust_id = id ∧
         job.image_url = img.url ∧
         job.file_path = path_join (illust_parent_dir dirp aname id imgs.length)
           (last_segment img.url)) := by
  cases hdel : Val.truthy ((dict_get rec "_deleted").getD (Val.vbool false)) with
  | true =>
    have hl : l = [] := by
      rw [show illust_jobs dirp id rec = some [] from by simp [illust_jobs, hdel]] at h
      exact (Option.some.inj h).symm
    subst hl
    simp
  | false =>
    cases ha : dict_get rec "author_name" with
    | none => simp [illust_jobs, hdel, ha] at h
    | some w =>
      cases w with
      | vstr aname =>
        cases hv : dict_get rec "images" with
        | none => simp [illust_jobs, hdel, ha, hv] at h
        | some w2 =>
          cases w2 with
          | vimages imgs =>
            have hil2 : illust_jobs dirp id rec = some (imgs.enum.filterMap (fun p =>
                if p.2.fetched.getD false then none
                else some { file_path := path_join
                              (if imgs.length > 1 then path_join (path_join dirp aname) id
                               else path_join dirp aname)
                              (last_segment p.2.url),
                            image_url := p.2.url,
                            illust_id := id,
                            image_id := p.1 })) := by
              simp only [illust_jobs, hdel, Bool.false_eq_true, if_false, ha, hv]
            have hl : l = imgs.enum.filterMap (fun p =>
                if p.2.fetched.getD false then none
                else some { file_path := path_join
                              (if imgs.length > 1 then path_join (path_join dirp aname) id
                               else path_join dirp aname)
                              (last_segment p.2.url),
                            image_url := p.2.url,
                            illust_id := id,
                            image_id := p.1 }) := by
              rw [hil2] at h
              exact (Option.some.inj h).symm
            subst hl
            rw [List.mem_filterMap]
            constructor
            · rintro ⟨⟨i, img⟩, hmem, hjob⟩
              cases hf : img.fetched.getD false with
              | true => rw [if_pos (by simpa using hf)] at hjob; cases hjob
              | false =>
                rw [if_neg (by simpa using hf)] at hjob
                obtain rfl := Option.some.inj hjob
                refine ⟨rfl, aname, imgs, img, rfl, rfl, ?_, hf, rfl, rfl, rfl⟩
                rw [List.get?_eq_getElem?]
                exact List.mk_mem_enum_iff_getElem?.mp hmem
            · rintro ⟨-, aname2, imgs2, img, ha2, hv2, hget, hf, hid, hurl, hpath⟩
              obtain rfl : aname = aname2 := by
                injection (Option.some.inj ha2)
              obtain rfl : imgs = imgs2 := by
                injection (Option.some.inj hv2)
              refine ⟨(job.image_id, img), ?_, ?_⟩
              · exact List.mk_mem_enum_iff_getElem?.mpr
                  (by rw [← List.get?_eq_getElem?]; exact hget)
              · rw [if_neg (by simpa using hf)]
                obtain ⟨fp, url, iid, iidx⟩ := job
                simp only at hid hurl hpath
                rw [hid, hurl, hpath]
                rfl
          | vbool b => simp [illust_jobs, hdel, ha, hv] at h
          | vnat n => simp [illust_jobs, hdel, ha, hv] at h
          | vstr s => simp [illust_jobs, hdel, ha, hv] at h
          | vtags ts => simp [illust_jobs, hdel, ha, hv] at h
      | vbool b => simp [illust_jobs, hdel, ha] at h
      | vnat n => simp [illust_jobs, hdel, ha] at h
      | vtags ts => simp [illust_jobs, hdel, ha] at h
      | vimages imgs => simp [illust_jobs, hdel, ha] at h

theorem jobs_of_list_mem (dirp : String) :
    ∀ (lst : List (String × Rec)) (js : List FetchImageJob),
    jobs_of_list dirp lst = some js → ∀ job,
    (job ∈ js ↔ ∃ id rec l, (id, rec) ∈ lst ∧ illust_jobs dirp id rec = some l ∧
      job ∈ l) := by
  intro lst
  induction lst with
  | nil =>
    intro js h job
    obtain rfl : ([] : List FetchImageJob) = js := by injection h
    simp
  | cons hd tl ih =>
    obtain ⟨id1, rec1⟩ := hd
    intro js h job
    rw [jobs_of_list] at h
    cases hil : illust_jobs dirp id1 rec1 with
    | none => rw [hil] at h; cases h
    | some l1 =>
      rw [hil] at h
      cases htl : jobs_of_list dirp tl with
      | none => rw [htl] at h; cases h
      | some js2 =>
        rw [htl] at h
        obtain rfl := Option.some.inj h
        rw [List.mem_append]
        constructor
        · rintro (hmem | hmem)
          · exact ⟨id1, rec1, l1, List.mem_cons_self _ _, hil, hmem⟩
          · obtain ⟨id2, rec2, l2, hmem2, hil2, hjob⟩ := (ih js2 htl job).mp hmem
            exact ⟨id2, rec2, l2, List.mem_cons_of_mem _ hmem2, hil2, hjob⟩
        · rintro ⟨id2, rec2, l2, hmem2, hil2, hjob⟩
          rcases List.mem_cons.mp hmem2 with heq | hmem3
          · obtain rfl : id1 = id2 := (congrArg Prod.fst heq).symm
            obtain rfl : rec1 = rec2 := (congrArg Prod.snd heq).symm
            rw [hil] at hil2
            obtain rfl := Option.some.inj hil2
            exact Or.inl hjob
          · exact Or.inr ((ih js2 htl job).mpr ⟨id2, rec2, l2, hmem3, hil2, hjob⟩)

theorem filterMap_map_nodup {α β γ : Type} (g : α → Option β) (f : β → γ)
    (pr : α → γ) (hg : ∀ a b, g a = some b → f b = pr a) :
    ∀ (el : List α), (el.map pr).Nodup → ((el.filterMap g).map f).Nodup := by
  intro el
  induction el with
  | nil => intro h; simp
  | cons hd tl ih =>
    intro h
    simp only [List.map_cons, List.nodup_cons] at h
    cases hg1 : g hd with
    | none => simpa [List.filterMap_cons, hg1] using ih h.2
    | some b =>
      simp only [List.filterMap_cons, hg1, List.map_cons, List.nodup_cons]
      refine ⟨?_, ih h.2⟩
      intro hmem
      rw [List.mem_map] at hmem
      obtain ⟨b2, hb2, hfb2⟩ := hmem
      rw [List.mem_filterMap] at hb2
      obtain ⟨a2, ha2, hga2⟩ := hb2
      have : f b = pr a2 := by rw [← hfb2]; exact hg a2 b2 hga2
      rw [hg a2 b2 hga2] at hfb2
      rw [hg hd b hg1] at hfb2
      exact h.1 (hfb2 ▸ List.mem_map_of_mem pr ha2)

theorem illust_jobs_image_id_nodup (dirp id : String) (rec : Rec)
    (l : List FetchImageJob) (h : illust_jobs dirp id rec = some l) :
    (l.map (fun j => j.image_id)).Nodup := by
  cases hdel : Val.truthy ((dict_get rec "_deleted").getD (Val.vbool false)) with
  | true =>
    have hl : l = [] := by
      rw [show illust_jobs dirp id rec = some [] from by simp [illust_jobs, hdel]] at h
      exact (Option.some.inj h).symm
    subst hl
    simp
  | false =>
    cases ha : dict_get rec "author_name" with
    | none => simp [illust_jobs, hdel, ha] at h
    | some w =>
      cases w with
      | vstr aname =>
        cases hv : dict_get rec "images" with
        | none => simp [illust_jobs, hdel, ha, hv] at h
        | some w2 =>
          cases w2 with
          | vimages imgs =>
            have hil2 : illust_jobs dirp id rec = some (imgs.enum.filterMap (fun p =>
                if p.2.fetched.getD false then none
                else some { file_path := path_join
                              (if imgs.length > 1 then path_join (path_join dirp aname) id
                               else path_join dirp aname)
                              (last_segment p.2.url),
                            image_url := p.2.url,
                            illust_id := id,
                            image_id := p.1 })) := by
              simp only [illust_jobs, hdel, Bool.false_eq_true, if_false, ha, hv]
            have hl : l = imgs.enum.filterMap (fun p =>
                if p.2.fetched.getD false then none
                else some { file_path := path_join
                              (if imgs.length > 1 then path_join (path_join dirp aname) id
                               else path_join dirp aname)
                              (last_segment p.2.url),
                            image_url := p.2.url,
                            illust_id := id,
                            image_id := p.1 }) := by
              rw [hil2] at h
              exact (Option.some.inj h).symm
            subst hl
            refine filterMap_map_nodup _ _ Prod.fst ?_ imgs.enum ?_
            · intro p j hj
              cases hf : p.2.fetched.getD false with
              | true => rw [if_pos (by simpa using hf)] at hj; cases hj
              | false =>
                rw [if_neg (by simpa using hf)] at hj
                obtain rfl := Option.some.inj hj
                rfl
            · rw [List.enum_map_fst]
              exact List.nodup_range _
          | vbool b => simp [illust_jobs, hdel, ha, hv] at h
          | vnat n => simp [illust_jobs, hdel, ha, hv] at h
          | vstr s => simp [illust_jobs, hdel, ha, hv] at h
          | vtags ts => simp [illust_jobs, hdel, ha, hv] at h
      | vbool b => simp [illust_jobs, hdel, ha] at h
      | vnat n => simp [illust_jobs, hdel, ha] at h
      | vtags ts => simp [illust_jobs, hdel, ha] at h
      | vimages imgs => simp [illust_jobs, hdel, ha] at h

theorem illust_jobs_illust_id (dirp id : String) (rec : Rec)
    (l : List FetchImageJob) (h : illust_jobs dirp id rec = some l)
    (job : FetchImageJob) (hmem : job ∈ l) : job.illust_id = id := by
  obtain ⟨-, aname, imgs, img, -, -, -, -, hid, -, -⟩ :=
    (illust_jobs_mem dirp id rec l h job).mp hmem
  exact hid

theorem jobs_of_list_pair_nodup (dirp : String) :
    ∀ (lst : List (String × Rec)) (js : List FetchImageJob),
    (dict_keys lst).Nodup → jobs_of_list dirp lst = some js →
    (js.map (fun j => (j.illust_id, j.image_id))).Nodup := by
  intro lst
  induction lst with
  | nil =>
    intro js hnd h
    obtain rfl : ([] : List FetchImageJob) = js := by injection h
    simp
  | cons hd tl ih =>
    obtain ⟨id1, rec1⟩ := hd
    intro js hnd h
    obtain ⟨hk1, htl⟩ := dict_keys_nodup_tail id1 rec1 tl hnd
    rw [jobs_of_list] at h
    cases hil : illust_jobs dirp id1 rec1 with
    | none => rw [hil] at h; cases h
    | some l1 =>
      rw [hil] at h
      cases htl2 : jobs_of_list dirp tl with
      | none => rw [htl2] at h; cases h
      | some js2 =>
        rw [htl2] at h
        obtain rfl := Option.some.inj h
        rw [List.map_append, List.nodup_append]
        refine ⟨?_, ih js2 htl htl2, ?_⟩
        · have hmapeq : l1.map (fun j => (j.illust_id, j.image_id)) =
              (l1.map (fun j => j.image_id)).map (fun i => (id1, i)) := by
            rw [List.map_map]
            refine List.map_congr_left ?_
            intro j hj
            simp only [Function.comp]
            rw [illust_jobs_illust_id dirp id1 rec1 l1 hil j hj]
          rw [hmapeq]
          exact (illust_jobs_image_id_nodup dirp id1 rec1 l1 hil).map
            (fun a b hab => by injection hab)
        · intro p hp1 hp2
          rw [List.mem_map] at hp1 hp2
          obtain ⟨j1, hj1, rfl⟩ := hp1
          obtain ⟨j2, hj2, hpair⟩ := hp2
          have hid1 : j1.illust_id = id1 := illust_jobs_illust_id dirp id1 rec1 l1 hil j1 hj1
          obtain ⟨id2, rec2, l2, hmem2, hil2, hjob2⟩ :=
            (jobs_of_list_mem dirp tl js2 htl2 j2).mp hj2
          have hid2 : j2.illust_id = id2 := illust_jobs_illust_id dirp id2 rec2 l2 hil2 j2 hjob2
          have : j1.illust_id = j2.illust_id := (congrArg Prod.fst hpair).symm
          rw [hid1, hid2] at this
          subst this
          exact hk1 (List.mem_map_of_mem Prod.fst hmem2)

theorem jobs_of_list_entry_some (dirp : String) :
    ∀ (lst : List (String × Rec)) (js : List FetchImageJob),
    jobs_of_list dirp lst = some js →
    ∀ id rec, (id, rec) ∈ lst → ∃ l, illust_jobs dirp id rec = some l := by
  intro lst
  induction lst with
  | nil =>
    intro js h id rec hmem
    cases hmem
  | cons hd tl ih =>
    obtain ⟨id1, rec1⟩ := hd
    intro js h id rec hmem
    rw [jobs_of_list] at h
    cases hil : illust_jobs dirp id1 rec1 with
    | none => rw [hil] at h; cases h
    | some l1 =>
      rw [hil] at h
      cases htl : jobs_of_list dirp tl with
      | none => rw [htl] at h; cases h
      | some js2 =>
        rcases List.mem_cons.mp hmem with heq | hmem2
        · obtain rfl : id1 = id := (congrArg Prod.fst heq).symm
          obtain rfl : rec1 = rec := (congrArg Prod.snd heq).symm
          exact ⟨l1, hil⟩
        · exact ih js2 htl id rec hmem2

/-- C5.  Whenever the job-building step of `fetch_images` completes, the
produced list holds exactly one job per pair of a non-deleted illust and
an unfetched image position: membership is equivalent to the pair
condition with the destination path
`<download_dir>/<author_name>/[<illust_id>/]<last url segment>` (the
illust-id subdirectory appearing exactly when the illust has more than one
image); every qualifying pair contributes its job; no two jobs share an
(illust id, image index) pair; and the list is sorted by destination
path. -/
theorem fetch_image_jobs_spec (db : SyncDB) (dirp : String)
    (jobs : List FetchImageJob)
    (hnd : (dict_keys db.illusts).Nodup)
    (h : fetch_image_jobs db dirp = some jobs) :
    (∀ job, job ∈ jobs ↔ ∃ rec aname imgs img,
      dict_get db.illusts job.illust_id = some rec ∧
      Val.truthy ((dict_get rec "_deleted").getD (Val.vbool false)) = false ∧
      dict_get rec "author_name" = some (Val.vstr aname) ∧
      dict_get rec "images" = some (Val.vimages imgs) ∧
      imgs.get? job.image_id = some img ∧
      img.fetched.getD false = false ∧
      job.image_url = img.url ∧
      job.file_path = path_join (illust_parent_dir dirp aname job.illust_id imgs.length)
        (last_segment img.url)) ∧
    (∀ id rec aname imgs i img,
      dict_get db.illusts id = some rec →
      Val.truthy ((dict_get rec "_deleted").getD (Val.vbool false)) = false →
      dict_get rec "author_name" = some (Val.vstr aname) →
      dict_get rec "images" = some (Val.vimages imgs) →
      imgs.get? i = some img →
      img.fetched.getD false = false →
      ({ file_path := path_join (illust_parent_dir dirp aname id imgs.length)
           (last_segment img.url),
         image_url := img.url, illust_id := id, image_id := i } : FetchImageJob) ∈ jobs) ∧
    jobs.Sorted job_le ∧
    (jobs.map (fun j => (j.illust_id, j.image_id))).Nodup := by
  obtain ⟨js, hjs, rfl⟩ := Option.map_eq_some'.mp h
  have hmem_iff : ∀ job, job ∈ js.insertionSort job_le ↔ ∃ rec aname imgs img,
      dict_get db.illusts job.illust_id = some rec ∧
      Val.truthy ((dict_get rec "_deleted").getD (Val.vbool false)) = false ∧
      dict_get rec "author_name" = some (Val.vstr aname) ∧
      dict_get rec "images" = some (Val.vimages imgs) ∧
      imgs.get? job.image_id = some img ∧
      img.fetched.getD false = false ∧
      job.image_url = img.url ∧
      job.file_path = path_join (illust_parent_dir dirp aname job.illust_id imgs.length)
        (last_segment img.url) := by
    intro job
    rw [(List.perm_insertionSort job_le js).mem_iff]
    rw [jobs_of_list_mem dirp db.illusts js hjs job]
    constructor
    · rintro ⟨id, rec, l, hmem, hil, hjob⟩
      obtain ⟨hdel, aname, imgs, img, ha, hv, hget, hf, hid, hurl, hpath⟩ :=
        (illust_jobs_mem dirp id rec l hil job).mp hjob
      refine ⟨rec, aname, imgs, img, ?_, hdel, ha, hv, hget, hf, hurl, ?_⟩
      · rw [hid]
        exact (mem_iff_dict_get_of_nodup db.illusts hnd id rec).mp hmem
      · rw [hid]
        exact hpath
    · rintro ⟨rec, aname, imgs, img, hlook, hdel, ha, hv, hget, hf, hurl, hpath⟩
      have hmem : (job.illust_id, rec) ∈ db.illusts :=
        (mem_iff_dict_get_of_nodup db.illusts hnd job.illust_id rec).mpr hlook
      obtain ⟨l, hil⟩ := jobs_of_list_entry_some dirp db.illusts js hjs
        job.illust_id rec hmem
      refine ⟨job.illust_id, rec, l, hmem, hil, ?_⟩
      exact (illust_jobs_mem dirp job.illust_id rec l hil job).mpr
        ⟨hdel, aname, imgs, img, ha, hv, hget, hf, rfl, hurl, hpath⟩
  refine ⟨hmem_iff, ?_, ?_, ?_⟩
  · intro id rec aname imgs i img hlook hdel ha hv hget hf
    exact (hmem_iff _).mpr ⟨rec, aname, imgs, img, hlook, hdel, ha, hv, hget, hf,
      rfl, rfl⟩
  · exact List.sorted_insertionSort job_le js
  · exact ((List.perm_insertionSort job_le js).map
      (fun j => (j.illust_id, j.image_id))).nodup_iff.mpr
      (jobs_of_list_pair_nodup dirp db.illusts js hnd hjs)

/-- A non-deleted single-image record by author `a` (image unfetched). -/
def rec_w5 : Rec :=
  [("author_name", Val.vstr "a"), ("_deleted", Val.vbool false),
   ("images", Val.vimages [{ url := "u/b.jpg", fetched := none }])]

/-- A deleted record: its images contribute no jobs. -/
def rec_w6 : Rec :=
  [("author_name", Val.vstr "z"), ("_deleted", Val.vbool true),
   ("images", Val.vimages [{ url := "u/c.jpg", fetched := none }])]

/-- A non-deleted two-image record by author `a` (images unfetched). -/
def rec_w7 : Rec :=
  [("author_name", Val.vstr "a"),
   ("images", Val.vimages
     [{ url := "u/p1.png", fetched := none },
      { url := "u/p2.png", fetched := none }]),
   ("_deleted", Val.vbool false)]

/-- A store with two non-deleted records (one multi-image) and one
deleted record. -/
def db_w : SyncDB :=
  { illusts := [("5", rec_w5), ("6", rec_w6), ("7", rec_w7)], users := [] }

/-- The job list the build step produces for `db_w`: one job per unfetched
image of the non-deleted records, sorted by destination path, with the
per-illust subdirectory only for the two-image illust. -/
def jobs_w : List FetchImageJob :=
  [{ file_path := "dl/a/7/p1.png", image_url := "u/p1.png",
     illust_id := "7", image_id := 0 },
   { file_path := "dl/a/7/p2.png", image_url := "u/p2.png",
     illust_id := "7", image_id := 1 },
   { file_path := "dl/a/b.jpg", image_url := "u/b.jpg",
     illust_id := "5", image_id := 0 }]

/-- Witness for C5 at a concrete store. -/
theorem fetch_image_jobs_spec_witness :
    (dict_keys db_w.illusts).Nodup ∧
    fetch_image_jobs db_w "dl" = some jobs_w ∧
    jobs_w.Sorted job_le ∧
    (jobs_w.map (fun j => (j.illust_id, j.image_id))).Nodup := by
  have h1 : (dict_keys db_w.illusts).Nodup := by decide
  have h2 : fetch_image_jobs db_w "dl" = some jobs_w := by decide
  have h3 := fetch_image_jobs_spec db_w "dl" jobs_w h1 h2
  exact ⟨h1, h2, h3.2.2.1, h3.2.2.2⟩

end PixivSync
